import Mathlib

/-!
Verification of the Tower deployment reconciler (dldc-packages/tower).

This file shallowly embeds the core algorithms of the repository in Lean:

* `src/core/semver.ts` — semver range matching (`matchSemverRange`, `parseRange`,
  `isSemverTag`, `normalizeTag`, `compareSemver`);
* `src/core/registry.ts` — image reference parsing (`parseImageRef`);
* `src/core/deployer.ts` — image normalization and digest resolution
  (`normalizeLocalRegistry`, `rewriteRegistryToInternal`, `resolveImageToDigest`,
  `isSemverLike`, `resolveSemver`);
* `src/core/validator.ts` — the semantic validation of an intent (`validateIntent`);
* `src/core/applier.ts` — the apply orchestration (`apply`), with the file system
  threaded explicitly and the outcomes of external processes (docker compose,
  Caddy admin API) given as oracle inputs;
* `src/core/dns.ts` — the DNS gate (`validateDns`, `validateSingleDomain`);
* `src/core/health.ts` — the container health monitor (`waitForHealthy`,
  `getContainerHealth`);
* `src/generators/caddy.ts` — the per-service Caddy route construction
  (`normalizeScopes`, `buildScopedRoute`, `buildBasicAllRoute`, `buildOpenRoute`).

JavaScript strings are modelled as Lean `String`/`List Char`; JavaScript numbers
that can be `NaN` are modelled as `Option Nat` (`none` = `NaN`), and possibly
`undefined` values as an outer `Option`.  Asynchronous network and process
effects are modelled as oracle functions whose results (`Option …`) distinguish
success from a thrown error.  Polling loops driven by wall-clock time are
modelled with a poll index: the loop body at iteration `k` runs at time
`2000·k` ms (the code sleeps 2000 ms between iterations).
-/

namespace Tower

/-! ## JavaScript string primitives

Char-list level implementations of the JavaScript string operations used by the
source (`split`, first-occurrence matching, `trim`), so that proofs can proceed
by list induction. -/

/-- JS `s.split(sep)` for a one-character separator: splits at every
occurrence, keeping empty segments (`"".split(".") = [""]`). -/
def splitOnCharL (sep : Char) : List Char → List (List Char)
  | [] => [[]]
  | c :: rest =>
    if c = sep then [] :: splitOnCharL sep rest
    else
      match splitOnCharL sep rest with
      | h :: t => (c :: h) :: t
      | [] => [[c]]

/-- Inverse of `splitOnCharL`: re-join with the separator. -/
def joinOnCharL (sep : Char) : List (List Char) → List Char
  | [] => []
  | [a] => a
  | a :: rest => a ++ sep :: joinOnCharL sep rest

/-- Split a char list at the first occurrence of `c`: models the anchored
regex `^([^c]+)c(.+)$` used by `parseImageRef` (both captured groups must be
nonempty; the first group stops at the first occurrence of `c`). -/
def breakAtFirst (c : Char) : List Char → Option (List Char × List Char)
  | [] => none
  | x :: xs =>
    if x = c then some ([], xs)
    else
      match breakAtFirst c xs with
      | some (a, b) => some (x :: a, b)
      | none => none

/-- JS `Number(s)` restricted to the strings this code base feeds it:
`""` evaluates to `0`, a nonempty digit string to its value, anything else to
`NaN` (modelled as `none`). -/
def jsNumL (l : List Char) : Option Nat :=
  if l.isEmpty then some 0
  else if l.all Char.isDigit then some (l.foldl (fun acc c => acc * 10 + (c.toNat - 48)) 0)
  else none

/-! ## `src/core/semver.ts` -/

/-- `normalizeTag`: remove a leading lowercase `'v'` if present. -/
def normalizeTagL : List Char → List Char
  | 'v' :: rest => rest
  | l => l

/-- Character class `[a-z0-9.-]` under the `/i` flag, as used in the
pre-release/build suffix of the semver-tag regex. -/
def suffixChar (c : Char) : Bool :=
  c.isDigit || c.isLower || c.isUpper || c == '.' || c == '-'

/-- The optional `(-[a-z0-9.-]+)?(\+[a-z0-9.-]+)?$` tail of the semver-tag
regex: an optional pre-release part introduced by `'-'` (which cannot contain
`'+'`), then an optional build part introduced by `'+'`. -/
def suffixOk : List Char → Bool
  | [] => true
  | '+' :: rest => !rest.isEmpty && rest.all suffixChar
  | '-' :: rest =>
    let pre := rest.takeWhile (fun c => c != '+')
    let post := rest.dropWhile (fun c => c != '+')
    !pre.isEmpty && pre.all suffixChar &&
      (match post with
       | [] => true
       | _ :: b => !b.isEmpty && b.all suffixChar)
  | _ => false

/-- `isSemverTag` (after `normalizeTag`): the regex
`^\d+\.\d+\.\d+(-[a-z0-9.-]+)?(\+[a-z0-9.-]+)?$/i` — three nonempty digit
groups separated by dots, then the optional suffix. -/
def isSemverTagL (l : List Char) : Bool :=
  match l.dropWhile Char.isDigit with
  | c1 :: s1 =>
    c1 == '.' &&
      (match s1.dropWhile Char.isDigit with
       | c2 :: s2 =>
         c2 == '.' &&
           !(l.takeWhile Char.isDigit).isEmpty &&
           !(s1.takeWhile Char.isDigit).isEmpty &&
           !(s2.takeWhile Char.isDigit).isEmpty &&
           suffixOk (s2.dropWhile Char.isDigit)
       | [] => false)
  | [] => false

/-- `isSemverTag` on strings. -/
def isSemverTag (tag : String) : Bool :=
  isSemverTagL (normalizeTagL tag.toList)

/-- The regex `^\d+\.\d+\.\d+$` used for the exact-match branch of
`parseRange`: exactly three nonempty digit groups separated by dots. -/
def isExactTripleL (l : List Char) : Bool :=
  match splitOnCharL '.' l with
  | [a, b, c] =>
    !a.isEmpty && a.all Char.isDigit && !b.isEmpty && b.all Char.isDigit &&
      !c.isEmpty && c.all Char.isDigit
  | _ => false

/-- The wildcard matcher of `parseRange`: the range with every `'*'` replaced
by `\d+` is compiled to an anchored regex and tested against the normalized
tag.  Faithful for ranges whose characters are digits, dots and stars (a
literal `'.'` in the range becomes the regex wildcard `.`); the code never
produces other wildcard ranges in the scenarios verified here.  `fuel`
bounds the backtracking depth by the length of the subject plus one. -/
def wcGo : Nat → List Char → List Char → Bool
  | _, [], [] => true
  | _, [], _ :: _ => false
  | _, _ :: _, [] => false
  | 0, _ :: _, _ :: _ => false
  | fuel + 1, '*' :: ps, c :: ts => c.isDigit && (wcGo fuel ps ts || wcGo fuel ('*' :: ps) ts)
  | fuel + 1, '.' :: ps, _ :: ts => wcGo fuel ps ts
  | fuel + 1, c :: ps, d :: ts => c == d && wcGo fuel ps ts

/-- Wildcard regex match with sufficient fuel. -/
def wcMatch (p t : List Char) : Bool := wcGo (t.length + 1) p t

/-- The numeric components of a tag as the caret/tilde matchers see them:
`normalizeTag(tag).split(".").map(Number)`.  Entry `i` missing models the
JS `undefined`, entry `some none` models `NaN`. -/
def numParts (l : List Char) : List (Option Nat) :=
  (splitOnCharL '.' l).map jsNumL

/-- JS strict equality `===` between two values that are each a number, `NaN`
or `undefined`:  `undefined === undefined` is true, `NaN` equals nothing. -/
def jsSEq : Option (Option Nat) → Option (Option Nat) → Bool
  | none, none => true
  | some (some a), some (some b) => a == b
  | _, _ => false

/-- JS `>` between such values: false unless both are real numbers. -/
def jsGt : Option (Option Nat) → Option (Option Nat) → Bool
  | some (some a), some (some b) => b < a
  | _, _ => false

/-- `parseRange(range)(tag)` with the range already normalized
(`normalizeTag` applied).  Branch order as in the source: exact triple,
wildcard, caret, tilde, fallback exact string match. -/
def rangeMatchesL (nrange : List Char) (tag : List Char) : Bool :=
  if isExactTripleL nrange then normalizeTagL tag == nrange
  else if nrange.contains '*' then wcMatch nrange (normalizeTagL tag)
  else
    match nrange with
    | '^' :: version =>
      let vp := numParts version
      let tp := numParts (normalizeTagL tag)
      jsSEq (tp.get? 0) (vp.get? 0) &&
        (jsGt (tp.get? 1) (vp.get? 1) ||
          (jsSEq (tp.get? 1) (vp.get? 1) && (tp.get? 2).isSome))
    | '~' :: version =>
      let vp := numParts version
      let tp := numParts (normalizeTagL tag)
      jsSEq (tp.get? 0) (vp.get? 0) && jsSEq (tp.get? 1) (vp.get? 1)
    | _ => normalizeTagL tag == nrange

/-- `parseRange(range)(tag)` on strings. -/
def rangeMatches (range tag : String) : Bool :=
  rangeMatchesL (normalizeTagL range.toList) tag.toList

/-- One component comparison of `compareSemver`: `aParts[i] ?? 0` versus
`bParts[i] ?? 0`.  `some o` means the JS loop returns now with ordering `o`
(a `NaN` difference is returned as well, and the sort treats it as 0);
`none` means the components are equal numbers and the loop continues. -/
def cmpPart : Option Nat → Option Nat → Option Ordering
  | some x, some y => if x = y then none else some (compare x y)
  | _, _ => some Ordering.eq

/-- `compareSemver(a, b)` as an `Ordering` (the sign of the JS return value;
`NaN` returns are `eq`, matching how `Array.prototype.sort` treats them). -/
def compareSemver (a b : String) : Ordering :=
  let pa := fun i => (numParts (normalizeTagL a.toList)).getD i (some 0)
  let pb := fun i => (numParts (normalizeTagL b.toList)).getD i (some 0)
  match cmpPart (pa 0) (pb 0) with
  | some o => o
  | none =>
    match cmpPart (pa 1) (pb 1) with
    | some o => o
    | none =>
      match cmpPart (pa 2) (pb 2) with
      | some o => o
      | none => Ordering.eq

/-- Left-to-right scan keeping the current best: replace it whenever it does
not strictly exceed the next element. -/
def pickBestFrom (b : String) : List String → String
  | [] => b
  | t :: rest => pickBestFrom (if compareSemver b t = Ordering.gt then b else t) rest

/-- `matches.sort(compareSemver).reverse()[0]`: the element a stable ascending
sort places last — the latest list element that is maximal under
`compareSemver`. -/
def pickBest : List String → Option String
  | [] => none
  | t :: rest => some (pickBestFrom t rest)

/-- `matchSemverRange(range, tags)`: filter to semver-looking tags, keep those
matched by the parsed range, and return the best match (or `null`). -/
def matchSemverRange (range : String) (tags : List String) : Option String :=
  let semverTags := tags.filter isSemverTag
  if semverTags.isEmpty then none
  else
    let matched := semverTags.filter (fun tag => rangeMatches range tag)
    if matched.isEmpty then none
    else pickBest matched

/-! ## `src/core/registry.ts` — `parseImageRef` and the registry client -/

/-- The result of `parseImageRef`. -/
structure ImageRef where
  registry : String
  repository : String
  tag : Option String
  digest : Option String
deriving DecidableEq, Repr

/-- `^([^sep]+)sep(.+)$`: split at the first occurrence of `sep` requiring a
nonempty part on each side, as `String → Option`. -/
def reSplit (sep : Char) (s : String) : Option (String × String) :=
  match breakAtFirst sep s.toList with
  | some (a, b) => if a.isEmpty || b.isEmpty then none else some (⟨a⟩, ⟨b⟩)
  | none => none

/-- `const [registry, ...repoParts] = path.split("/")` and
`repoParts.join("/")`. -/
def splitHost (path : String) : String × String :=
  match splitOnCharL '/' path.toList with
  | [] => ("", "")
  | h :: t => (⟨h⟩, ⟨joinOnCharL '/' t⟩)

/-- `parseImageRef(imageRef)`: first try `^([^@]+)@(.+)$` (digest form), then
`^([^:]+):(.+)$` (tag form — note the split is at the FIRST colon), else the
whole reference is a path with implicit tag `"latest"`. -/
def parseImageRef (imageRef : String) : ImageRef :=
  match reSplit '@' imageRef with
  | some (path, digest) =>
    let (reg, repo) := splitHost path
    ⟨reg, repo, none, some digest⟩
  | none =>
    match reSplit ':' imageRef with
    | some (path, tag) =>
      let (reg, repo) := splitHost path
      ⟨reg, repo, some tag, none⟩
    | none =>
      let (reg, repo) := splitHost imageRef
      ⟨reg, repo, some "latest", none⟩

/-- The registry HTTP collaborator, as an oracle keyed by the base URL the
client was created with.  `none` models a thrown `RegistryError` (HTTP
failure, missing tags field handled inside `listTags`, missing digest
header), `some` a successful response. -/
structure RegistryModel where
  listTags : String → String → Option (List String)
  getDigest : String → String → String → Option String

/-! ## `src/core/deployer.ts` — image normalization and digest resolution -/

/-- `isSemverLike(tag)`: the unanchored-at-the-end regex
`^[~^>=<]?\d+(\.\d+)?(\.\d+)?` — an optional range operator character
followed by at least one digit. -/
def isSemverLike (tag : String) : Bool :=
  match tag.toList with
  | [] => false
  | c :: rest =>
    if c.isDigit then true
    else if c == '~' || c == '^' || c == '>' || c == '=' || c == '<' then
      match rest with
      | d :: _ => d.isDigit
      | [] => false
    else false

/-- `rewriteRegistryToInternal(image, intent)`: if the image starts with
`"<registry domain>/"`, replace that prefix with `"registry:5000/"`. -/
def rewriteRegistryToInternal (image registryDomain : String) : String :=
  let pre := (registryDomain ++ "/").toList
  if pre.isPrefixOf image.toList then
    ⟨"registry:5000/".toList ++ image.toList.drop pre.length⟩
  else image

/-- `normalizeLocalRegistry(image, intent)`: replace a leading portable
`"registry://"` prefix by `"<registry domain>/"`, then rewrite the registry
domain to the in-network service address. -/
def normalizeLocalRegistry (image registryDomain : String) : String :=
  let withDomain :=
    if "registry://".toList.isPrefixOf image.toList then
      ⟨(registryDomain ++ "/").toList ++ image.toList.drop 11⟩
    else image
  rewriteRegistryToInternal withDomain registryDomain

/-- The base URL `resolveImageToDigest` talks to: the in-network registry
service when the parsed host is `"registry"` or the intent's registry
domain, an HTTPS URL on the parsed host otherwise. -/
def registryBaseUrl (registryDomain : String) (parsed : ImageRef) : String :=
  let isInternalRegistry :=
    parsed.registry == "registry" || parsed.registry == registryDomain
  if isInternalRegistry then "http://registry:5000" else "https://" ++ parsed.registry

/-- `resolveImageToDigest(imageRef, intent)`.  The whole body runs inside a
`try`/`catch` that logs and returns `null`; correspondingly every failing
oracle call yields `none` here and the function is total. -/
def resolveImageToDigest (reg : RegistryModel) (registryDomain imageRef : String) :
    Option String :=
  let parsed := parseImageRef imageRef
  match parsed.digest with
  | some _ => some imageRef
  | none =>
    match parsed.tag with
    | none => none
    | some tag =>
      if !isSemverLike tag then none
      else
        let baseUrl := registryBaseUrl registryDomain parsed
        match reg.listTags baseUrl parsed.repository with
        | none => none
        | some tags =>
          match matchSemverRange tag tags with
          | none => none
          | some matchedTag =>
            match reg.getDigest baseUrl parsed.repository matchedTag with
            | none => none
            | some digest =>
              some (parsed.registry ++ "/" ++ parsed.repository ++ "@" ++ digest)

/-- The per-app image resolution in `resolveServices`: normalize the image
reference, attempt digest resolution, and fall back to the normalized
reference when resolution yields `null`
(`imageDigest: resolvedImage ?? normalizedImageRef`). -/
def resolveAppImage (reg : RegistryModel) (registryDomain image : String) : String :=
  let normalizedImageRef := normalizeLocalRegistry image registryDomain
  (resolveImageToDigest reg registryDomain normalizedImageRef).getD normalizedImageRef

/-! ## `src/core/validator.ts` — semantic intent validation

The valibot schema performs the structural decode (required fields, primitive
types, field regexes); its output is the typed `Intent` value below, matching
the design note that structural validation is a typed parse step.  The custom
validations that follow the schema parse in `validateIntent` — duplicate and
reserved app names, domain conflicts, port range, health-check constraints,
env/secret key grammar, image reference format — are embedded here in source
order.  JS numeric fields are `Int` (valibot `number`). -/

/-- `HealthCheck` (optional fields keep their defaults at check time). -/
structure HealthCheck where
  path : Option String
  port : Option Int
  interval : Option Int
  timeout : Option Int
  retries : Option Int
deriving DecidableEq, Repr

/-- `App`: the fields consulted by `validateIntent` and the resolution
pipeline.  (`restart`, `volumes`, `ports`, `command`, `auth` are never read by
any function embedded in this file and are omitted from the record.) -/
structure App where
  name : String
  image : String
  domain : String
  port : Option Int
  env : List (String × String)
  secrets : List (String × String)
  healthCheck : Option HealthCheck
deriving DecidableEq, Repr

/-- The `tower` infrastructure block. -/
structure TowerBlock where
  version : String
  domain : String
  username : String
  passwordHash : String
deriving DecidableEq, Repr

/-- The `registry` infrastructure block. -/
structure RegistryBlock where
  domain : String
  username : String
  passwordHash : String
deriving DecidableEq, Repr

/-- The `otel` infrastructure block. -/
structure OtelBlock where
  version : String
  domain : String
  username : String
  passwordHash : String
deriving DecidableEq, Repr

/-- `Intent`, as typed by the valibot schema in `validator.ts`. -/
structure Intent where
  version : String
  adminEmail : String
  dataDir : Option String
  tower : TowerBlock
  registry : RegistryBlock
  otel : OtelBlock
  apps : List App
deriving DecidableEq, Repr

/-- `RESERVED_NAMES`: infrastructure service names apps may not use. -/
def RESERVED_NAMES : List String :=
  ["caddy", "registry", "tower", "otel-lgtm", "otel", "loki", "tempo", "grafana"]

/-- `ENV_VAR_NAME_REGEX = ^[a-zA-Z_][a-zA-Z0-9_]*$`. -/
def isEnvVarName (s : String) : Bool :=
  match s.toList with
  | [] => false
  | c :: rest => (c.isAlpha || c == '_') && rest.all (fun d => d.isAlphanum || d == '_')

/-- Check 1 of `validateIntent`: duplicate app names and reserved names,
accumulating the `appNames` set while walking the app list. -/
def checkAppNames : List App → List String → Except String Unit
  | [], _ => .ok ()
  | app :: rest, seen =>
    if seen.contains app.name then
      .error ("Duplicate app name: " ++ app.name)
    else if RESERVED_NAMES.contains app.name then
      .error ("App name \x22" ++ app.name ++ "\x22 is reserved for infrastructure services")
    else checkAppNames rest (app.name :: seen)

/-- JS `Map.prototype.set`: overwrite the value when the key exists, append
otherwise. -/
def mapSet (m : List (String × String)) (k v : String) : List (String × String) :=
  if m.any (fun e => e.1 == k) then m.map (fun e => if e.1 == k then (k, v) else e)
  else m ++ [(k, v)]

/-- JS `Map.prototype.get` as an `Option`. -/
def mapGet (m : List (String × String)) (k : String) : Option String :=
  (m.find? (fun e => e.1 == k)).map (·.2)

/-- Check 2 of `validateIntent`: walk the apps against the `allDomains` map
(pre-seeded with the three infrastructure domains by successive `set` calls,
so a duplicated infrastructure domain silently collapses to one entry) and
the `infraDomains` set. -/
def checkAppDomains : List App → List (String × String) → List String → Except String Unit
  | [], _, _ => .ok ()
  | app :: rest, allDomains, infraDomains =>
    match mapGet allDomains app.domain with
    | some existing =>
      .error ("Domain \x22" ++ app.domain ++ "\x22 is already used by " ++ existing)
    | none =>
      if infraDomains.contains app.domain then
        .error ("Domain \x22" ++ app.domain ++ "\x22 conflicts with infrastructure domain")
      else
        checkAppDomains rest
          (mapSet allDomains app.domain ("app \x22" ++ app.name ++ "\x22")) infraDomains

/-- `validateHealthCheckConstraints(appName, healthCheck)`. -/
def validateHealthCheckConstraints (appName : String) (hc : HealthCheck) :
    Except String Unit :=
  let interval := hc.interval.getD 10
  let timeout := hc.timeout.getD 5
  let retries := hc.retries.getD 3
  if interval ≤ timeout then
    .error ("App \x22" ++ appName ++ "\x22 healthCheck timeout must be less than interval")
  else if interval < 1 || interval > 300 then
    .error ("App \x22" ++ appName ++ "\x22 healthCheck interval must be between 1 and 300 seconds")
  else if timeout < 1 || timeout > 60 then
    .error ("App \x22" ++ appName ++ "\x22 healthCheck timeout must be between 1 and 60 seconds")
  else if retries < 0 || retries > 10 then
    .error ("App \x22" ++ appName ++ "\x22 healthCheck retries must be between 0 and 10")
  else
    match hc.path with
    | some p =>
      if p != "" && !("/".toList.isPrefixOf p.toList) then
        .error ("App \x22" ++ appName ++ "\x22 healthCheck path must start with \x22/\x22")
      else .ok ()
    | none => .ok ()

/-- JS `\s` on the characters that can appear here. -/
def jsWhitespace (c : Char) : Bool := c.isWhitespace

/-- JS `String.prototype.trim`. -/
def trimL (l : List Char) : List Char :=
  ((l.dropWhile jsWhitespace).reverse.dropWhile jsWhitespace).reverse

/-- `validateImageReference(appName, imageRef)`. -/
def validateImageReference (appName imageRef : String) : Except String Unit :=
  if imageRef == "" || (trimL imageRef.toList).isEmpty then
    .error ("App \x22" ++ appName ++ "\x22 image reference must not be empty")
  else if imageRef.toList.any jsWhitespace then
    .error ("App \x22" ++ appName ++ "\x22 image reference contains invalid whitespace")
  else
    let parts := splitOnCharL '/' imageRef.toList
    let lastPart := parts.getLastD []
    if lastPart.isEmpty || (trimL lastPart).isEmpty then
      .error ("App \x22" ++ appName ++ "\x22 image reference format is invalid")
    else .ok ()

/-- Check 3 of `validateIntent`, for a single app: port range (a falsy port
`0` skips the check, mirroring `app.port &&`), health-check constraints,
env and secret key grammar, image reference format. -/
def checkAppConstraints (app : App) : Except String Unit := do
  (if let some p := app.port then
    if p != 0 && (p < 1 || p > 65535) then
      .error ("App \x22" ++ app.name ++ "\x22 port must be between 1 and 65535")
    else .ok ()
   else .ok ())
  (match app.healthCheck with
   | some hc => validateHealthCheckConstraints app.name hc
   | none => .ok ())
  (match app.env.find? (fun e => !isEnvVarName e.1) with
   | some e =>
     .error ("App \x22" ++ app.name ++ "\x22 env key \x22" ++ e.1 ++
       "\x22 is not a valid environment variable name")
   | none => .ok ())
  (match app.secrets.find? (fun e => !isEnvVarName e.1) with
   | some e =>
     .error ("App \x22" ++ app.name ++ "\x22 secret key \x22" ++ e.1 ++
       "\x22 is not a valid environment variable name")
   | none => .ok ())
  validateImageReference app.name app.image

/-- Check 3 over the whole app list, in order. -/
def checkAllConstraints : List App → Except String Unit
  | [] => .ok ()
  | app :: rest => do
    checkAppConstraints app
    checkAllConstraints rest

/-- `validateIntent(data)` after the valibot structural parse: the semantic
checks in source order, returning the intent unchanged on success and the
first `ValidationError` message otherwise. -/
def validateIntent (intent : Intent) : Except String Intent := do
  checkAppNames intent.apps []
  let allDomains :=
    mapSet (mapSet (mapSet [] intent.tower.domain "tower") intent.registry.domain "registry")
      intent.otel.domain "otel"
  let infraDomains := [intent.tower.domain, intent.registry.domain, intent.otel.domain]
  checkAppDomains intent.apps allDomains infraDomains
  checkAllConstraints intent.apps
  return intent

/-! ## `src/core/applier.ts` — the apply orchestration

The data-directory file system is threaded explicitly as an association list
from path to file contents.  A written file either holds text (the generated
YAML/JSON strings) or the applied-intent record; `JSON.stringify` of the
applied record is modelled structurally, since the claims constrain when the
record is written, not its textual encoding.  The outcomes of the external
collaborators — `validateCompose`, `composeUpWithWait`, `loadCaddyConfig`,
`validateDns` — are oracle booleans (`false` models the call throwing), and
the two pure generators (`generateCompose`, `generateCaddyJson`), whose output
content no claim below constrains, are function parameters. -/

/-- `DEFAULT_DATA_DIR` from `src/config.ts`. -/
def DEFAULT_DATA_DIR : String := "/var/infra"

/-- Contents of a file written by `apply`. -/
inductive FileData where
  | text (content : String)
  | appliedRecord (intent : Intent) (appliedAt : String)
      (resolvedImages : List (String × String))
deriving DecidableEq, Repr

/-- The data directory's file system. -/
abbrev FS := List (String × FileData)

/-- `writeTextFile` / the JSON write: set the path's contents. -/
def fsWrite (fs : FS) (path : String) (data : FileData) : FS :=
  (path, data) :: fs.filter (fun e => e.1 != path)

/-- Read a path's contents. -/
def fsRead (fs : FS) (path : String) : Option FileData :=
  (fs.find? (fun e => e.1 == path)).map (·.2)

/-- `Deno.remove(path).catch(() => {})`. -/
def fsRemove (fs : FS) (path : String) : FS :=
  fs.filter (fun e => e.1 != path)

/-- Outcomes of the external effects invoked by one run of `apply`. -/
structure ApplyWorld where
  dnsOk : Bool
  composeValidateOk : Bool
  composeUpOk : Bool
  caddyLoadOk : Bool
  now : String
deriving Repr

/-- `resolveSemver(intent)`: for each app in order, normalize the image and
attempt digest resolution; record an entry only when resolution succeeds.
Every registry failure is caught inside `resolveImageToDigest`, so this stage
never throws. -/
def resolveSemver (reg : RegistryModel) (intent : Intent) : List (String × String) :=
  intent.apps.foldl
    (fun m app =>
      let image := normalizeLocalRegistry app.image intent.registry.domain
      match resolveImageToDigest reg intent.registry.domain image with
      | some resolved => m ++ [(app.name, resolved)]
      | none => m)
    []

/-- `apply(intent)` (src/core/applier.ts lines 33–103), returning the thrown
error or success together with the final file-system state.  Step order as in
the source: validate intent; resolve services and semver; DNS gate; generate
configs; write the compose manifest to a temporary path and validate it
(promoting it to the canonical path only on success, removing the temporary
file on either branch); write `Caddy.json`; `docker compose up`; reload
Caddy; finally persist the applied intent. -/
def apply (w : ApplyWorld) (reg : RegistryModel)
    (generateCompose : Intent → List (String × String) → String)
    (generateCaddyJson : Intent → String)
    (intent : Intent) (fs : FS) : Except String Unit × FS :=
  match validateIntent intent with
  | .error e => (.error e, fs)
  | .ok validatedIntent =>
    let dataDir := validatedIntent.dataDir.getD DEFAULT_DATA_DIR
    let resolvedImages := resolveSemver reg validatedIntent
    if !w.dnsOk then (.error "DNS validation failed", fs)
    else
      let composeYaml := generateCompose validatedIntent resolvedImages
      let composePath := dataDir ++ "/docker-compose.yml"
      let caddyJson := generateCaddyJson validatedIntent
      let caddyPath := dataDir ++ "/Caddy.json"
      let tempComposePath := dataDir ++ "/.docker-compose.yml.tmp"
      let fs1 := fsWrite fs tempComposePath (.text composeYaml)
      if !w.composeValidateOk then
        (.error "docker-compose.yml validation failed", fsRemove fs1 tempComposePath)
      else
        let fs2 := fsWrite fs1 composePath (.text composeYaml)
        let fs3 := fsRemove fs2 tempComposePath
        let fs4 := fsWrite fs3 caddyPath (.text caddyJson)
        if !w.composeUpOk then (.error "compose up failed", fs4)
        else if !w.caddyLoadOk then (.error "caddy reload failed", fs4)
        else
          (.ok (),
            fsWrite fs4 (dataDir ++ "/intent.json")
              (.appliedRecord validatedIntent w.now resolvedImages))

/-! ## `src/core/dns.ts` — the DNS gate

`Deno.resolveDns(domain, "A")` at poll `j` of a domain is an oracle returning
`none` for a thrown resolution error and `some addresses` otherwise.  Poll `j`
runs at time `2000·j` ms; the loop condition admits the poll iff
`2000·j < 1000·timeoutSeconds`. -/

/-- The DNS collaborator: domain and poll index to result. -/
def DnsModel := String → Nat → Option (List String)

/-- Whether poll `j` of `domain` observes a successful, nonempty resolution
(`addresses.length > 0`). -/
def resolvedAt (dns : DnsModel) (domain : String) (j : Nat) : Bool :=
  match dns domain j with
  | some addresses => addresses.length > 0
  | none => false

/-- The retry loop of `validateSingleDomain`, with structural fuel (the loop
performs at most `(T+1)/2` polls before its deadline). -/
def dnsGo (dns : DnsModel) (domain : String) (timeoutSeconds : Nat) :
    Nat → Nat → Bool
  | 0, _ => false
  | fuel + 1, j =>
    if 2000 * j < 1000 * timeoutSeconds then
      if resolvedAt dns domain j then true
      else dnsGo dns domain timeoutSeconds fuel (j + 1)
    else false

/-- `validateSingleDomain(domain, timeoutSeconds)` as its success boolean. -/
def validateSingleDomain (dns : DnsModel) (domain : String) (timeoutSeconds : Nat) : Bool :=
  dnsGo dns domain timeoutSeconds ((timeoutSeconds + 1) / 2 + 1) 0

/-- `validateDns(domains, timeoutSeconds = 30)`: an empty domain list returns
immediately (no oracle consulted); otherwise all domains are polled and the
failures aggregated into a single `DnsError`. -/
def validateDns (dns : DnsModel) (domains : List String) (timeoutSeconds : Nat) :
    Except String Unit :=
  if domains.isEmpty then .ok ()
  else
    let results := domains.map (fun d => (d, validateSingleDomain dns d timeoutSeconds))
    let failed := results.filter (fun r => !r.2)
    if failed.isEmpty then .ok ()
    else .error ("DNS validation failed for: " ++ String.intercalate ", " (failed.map (·.1)))

/-! ## `src/core/health.ts` — the container health monitor -/

/-- The status/health pair `getContainerHealth` produces for one container.
`health = none` models the JS `undefined` (inspect output without a `"|"`). -/
structure ContainerHealth where
  name : String
  status : String
  health : Option String
deriving DecidableEq, Repr

/-- A container counts as healthy: running, and health `"healthy"` or
`"none"`. -/
def isContainerHealthy (c : ContainerHealth) : Bool :=
  c.status == "running" && (c.health == some "healthy" || c.health == some "none")

/-- A container counts as failed: health `"unhealthy"` or status `"exited"`. -/
def isContainerFailed (c : ContainerHealth) : Bool :=
  c.health == some "unhealthy" || c.status == "exited"

/-- Result of `waitForHealthy`: convergence at a poll, fail-fast at a poll
naming the failed containers, or the timeout error. -/
inductive HealthOutcome where
  | success (poll : Nat)
  | failed (poll : Nat) (names : List String)
  | timeout
deriving DecidableEq, Repr

/-- The observations of poll `k` for the given container names. -/
def pollHealth (obs : Nat → String → ContainerHealth) (names : List String) (k : Nat) :
    List ContainerHealth :=
  names.map (fun n => obs k n)

/-- `health.every(...)` at poll `k`. -/
def allHealthyAt (obs : Nat → String → ContainerHealth) (names : List String) (k : Nat) :
    Bool :=
  (pollHealth obs names k).all isContainerHealthy

/-- The names of the containers `health.filter(...)` reports failed at poll
`k`. -/
def failedAt (obs : Nat → String → ContainerHealth) (names : List String) (k : Nat) :
    List String :=
  ((pollHealth obs names k).filter isContainerFailed).map (·.name)

/-- The polling loop of `waitForHealthy` with structural fuel.  Iteration `k`
runs at elapsed time `2000·k` ms; the timeout check `elapsed > timeoutMs`
fires before the poll. -/
def waitGo (obs : Nat → String → ContainerHealth) (names : List String)
    (timeoutSeconds : Nat) : Nat → Nat → HealthOutcome
  | 0, _ => .timeout
  | fuel + 1, k =>
    if 2000 * k > 1000 * timeoutSeconds then .timeout
    else if allHealthyAt obs names k then .success k
    else if !(failedAt obs names k).isEmpty then .failed k (failedAt obs names k)
    else waitGo obs names timeoutSeconds fuel (k + 1)

/-- `waitForHealthy(containerNames, timeoutSeconds = 60)`.  The loop times out
no later than iteration `T/2 + 1`, so fuel `T/2 + 2` is exact. -/
def waitForHealthy (obs : Nat → String → ContainerHealth) (names : List String)
    (timeoutSeconds : Nat) : HealthOutcome :=
  waitGo obs names timeoutSeconds (timeoutSeconds / 2 + 2) 0

/-- Result of the `docker inspect` exec call. -/
structure ExecResult where
  success : Bool
  stdout : String
  stderr : String
deriving DecidableEq, Repr

/-- `getContainerHealth(containerName)`: a thrown exec error (`none`) or a
non-zero exit both yield `{status: "unknown", health: "none"}`; otherwise the
trimmed stdout is split at `"|"` into status and health, an empty health
becoming `"none"`. -/
def getContainerHealth (inspectResult : Option ExecResult) (containerName : String) :
    ContainerHealth :=
  match inspectResult with
  | none => ⟨containerName, "unknown", some "none"⟩
  | some r =>
    if !r.success then ⟨containerName, "unknown", some "none"⟩
    else
      let parts := splitOnCharL '|' (trimL r.stdout.toList)
      let status : String := ⟨parts.getD 0 []⟩
      let health : Option String :=
        match parts.get? 1 with
        | some [] => some "none"
        | some h => some ⟨h⟩
        | none => none
      ⟨containerName, status, health⟩

/-! ## `src/generators/caddy.ts` — route construction

The generator builds plain JSON objects; they are modelled structurally below
(`CaddyRoute`), with `Option` fields for conditionally-present keys. -/

/-- `BasicAuthUser`. -/
structure BasicAuthUser where
  username : String
  passwordHash : String
deriving DecidableEq, Repr

/-- `AuthScope`: optional path and method matcher lists. -/
structure AuthScope where
  path : Option (List String)
  method : Option (List String)
deriving DecidableEq, Repr

/-- The `auth` field of a resolved service as the generator reads it. -/
structure AuthConfig where
  policy : String
  basicUsers : Option (List BasicAuthUser)
  scopes : Option (List AuthScope)
deriving DecidableEq, Repr

/-- The fields of a resolved service consulted by the route builder. -/
structure CaddySvc where
  name : String
  domain : String
  port : Nat
  upstreamName : Option String
  upstreamPort : Option Nat
  auth : Option AuthConfig
deriving DecidableEq, Repr

/-- A route matcher object (`host`/`path`/`method` keys present when set). -/
structure RouteMatcher where
  host : Option (List String)
  path : Option (List String)
  method : Option (List String)
deriving DecidableEq, Repr

mutual
/-- A handler object in a route's `handle` array. -/
inductive CaddyHandler where
  | authentication (accounts : List (String × String))
  | reverseProxy (dial : String)
  | subroute (routes : List CaddyRoute)

/-- A route object: optional `match` array, `handle` array, optional
`terminal` key. -/
inductive CaddyRoute where
  | mk (mtch : Option (List RouteMatcher)) (handle : List CaddyHandler)
      (terminal : Option Bool)
end

/-- `toBasicAccounts(users)`: `{username, password: passwordHash}` pairs. -/
def toBasicAccounts (users : Option (List BasicAuthUser)) : List (String × String) :=
  (users.getD []).map (fun u => (u.username, u.passwordHash))

/-- `buildBasicAllRoute(domain, upstreamDial, accounts)`. -/
def buildBasicAllRoute (domain upstreamDial : String)
    (accounts : List (String × String)) : CaddyRoute :=
  .mk (some [⟨some [domain], none, none⟩])
    [.authentication accounts, .reverseProxy upstreamDial]
    (some true)

/-- The default write-protection scope for `basic_write_only`. -/
def defaultWriteScope : AuthScope :=
  ⟨some ["/v2/*"], some ["POST", "PUT", "PATCH", "DELETE"]⟩

/-- `normalizeScopes(scopes, policy)`: keep declared scopes that have a
nonempty path or method list (`scopes?.length` truthy), otherwise fall back
to the default mutating-verbs scope for `basic_write_only` and to no scopes
for `basic_scoped`. -/
def normalizeScopes (scopes : Option (List AuthScope)) (policy : String) :
    List AuthScope :=
  match scopes with
  | some l =>
    if l.length != 0 then
      l.filter (fun s => (s.path.getD []).length > 0 || (s.method.getD []).length > 0)
    else if policy == "basic_write_only" then [defaultWriteScope]
    else []
  | none =>
    if policy == "basic_write_only" then [defaultWriteScope]
    else []

/-- `buildScopedRoute(domain, upstreamDial, accounts, scopes)`: one protected
branch per scope, an unprotected fallback branch, all inside a subroute; with
no scopes at all, fall back to protecting everything. -/
def buildScopedRoute (domain upstreamDial : String) (accounts : List (String × String))
    (scopes : List AuthScope) : CaddyRoute :=
  let protectedRoutes := scopes.map (fun scope =>
    CaddyRoute.mk (some [⟨none, scope.path, scope.method⟩])
      [.authentication accounts, .reverseProxy upstreamDial] none)
  let fallback := CaddyRoute.mk none [.reverseProxy upstreamDial] none
  if protectedRoutes.length == 0 then buildBasicAllRoute domain upstreamDial accounts
  else
    .mk (some [⟨some [domain], none, none⟩])
      [.subroute (protectedRoutes ++ [fallback])]
      (some true)

/-- `buildOpenRoute(domain, upstreamDial)`. -/
def buildOpenRoute (domain upstreamDial : String) : CaddyRoute :=
  .mk (some [⟨some [domain], none, none⟩]) [.reverseProxy upstreamDial] (some true)

/-- The dial string `"${svc.upstreamName ?? serviceName}:${upstreamPort}"`. -/
def dialOf (svc : CaddySvc) : String :=
  svc.upstreamName.getD svc.name ++ ":" ++ toString (svc.upstreamPort.getD svc.port)

/-- The body of the route loop in `generateCaddyJson` for one service:
`none` when the service is skipped (no domain, or the `caddy` service
itself). -/
def routeForService (svc : CaddySvc) : Option CaddyRoute :=
  if svc.domain == "" || svc.name == "caddy" then none
  else
    let upstreamDial := dialOf svc
    let accounts := toBasicAccounts (svc.auth.bind (·.basicUsers))
    match svc.auth with
    | some a =>
      if a.policy == "basic_all" then
        some (buildBasicAllRoute svc.domain upstreamDial accounts)
      else if a.policy == "basic_write_only" || a.policy == "basic_scoped" then
        some (buildScopedRoute svc.domain upstreamDial accounts
          (normalizeScopes a.scopes a.policy))
      else some (buildOpenRoute svc.domain upstreamDial)
    | none => some (buildOpenRoute svc.domain upstreamDial)

/-- The `routes` array of the generated config: the loop over all services. -/
def generateRoutes (services : List CaddySvc) : List CaddyRoute :=
  services.filterMap routeForService

/-! ## Concrete scenario data -/

/-- Registry oracle for the end-to-end scenario: every tag listing reports
`["1.0.0", "1.1.0"]` and every manifest HEAD returns a digest derived from
the tag. -/
def scenarioRegistry : RegistryModel :=
  ⟨fun _ _ => some ["1.0.0", "1.1.0"],
   fun _ _ tag => some ("sha256:digest-of-" ++ tag)⟩

/-- The end-to-end intent: registry domain `registry.example.com`, one app
`api` with image `registry://api:^1.0.0`. -/
def scenarioIntent : Intent :=
  { version := "1"
    adminEmail := "admin@example.com"
    dataDir := none
    tower := ⟨"0.1.0", "tower.example.com", "tower", "h1"⟩
    registry := ⟨"registry.example.com", "ci", "h2"⟩
    otel := ⟨"latest", "otel.example.com", "otel", "h3"⟩
    apps := [⟨"api", "registry://api:^1.0.0", "api.example.com", some 3000, [], [], none⟩] }

/-- An intent whose `tower` and `registry` blocks share a domain, with no
apps. -/
def dupInfraIntent : Intent :=
  { version := "1"
    adminEmail := "admin@example.com"
    dataDir := none
    tower := ⟨"0.1.0", "dup.example.com", "tower", "h1"⟩
    registry := ⟨"dup.example.com", "ci", "h2"⟩
    otel := ⟨"latest", "otel.example.com", "otel", "h3"⟩
    apps := [] }

/-- A registry oracle whose every call fails (models transport errors). -/
def failingRegistry : RegistryModel := ⟨fun _ _ => none, fun _ _ _ => none⟩

/-- A registry oracle that lists tags but fails every manifest HEAD. -/
def digestFailRegistry : RegistryModel :=
  ⟨fun _ _ => some ["1.0.0", "1.1.0"], fun _ _ _ => none⟩

/-- The registry service as the generator sees it, with write-only auth and
no declared scopes. -/
def writeOnlySvc : CaddySvc :=
  ⟨"registry", "registry.example.com", 5000, none, none,
    some ⟨"basic_write_only", some [⟨"ci", "hash"⟩], none⟩⟩

/-- A scoped service whose only declared scope has empty path and method
lists, so normalization leaves no usable scope. -/
def emptyScopedSvc : CaddySvc :=
  ⟨"api", "api.example.com", 3000, none, none,
    some ⟨"basic_scoped", some [⟨"u", "h"⟩], some [⟨none, none⟩, ⟨some [], some []⟩]⟩⟩

/-- Observations where `db` has exited and `web` is healthy from the first
poll. -/
def exitedObs : Nat → String → ContainerHealth := fun _ n =>
  if n == "db" then ⟨n, "exited", some "none"⟩ else ⟨n, "running", some "healthy"⟩

/-- The health record produced for any container whose inspection fails. -/
def unknownHealth (name : String) : ContainerHealth := ⟨name, "unknown", some "none"⟩

/-- DNS oracle: the good domain resolves from poll 2 on, the bad one
errors forever. -/
def scenarioDns : DnsModel := fun d j =>
  if d == "bad.example.com" then none
  else if j ≥ 2 then some ["203.0.113.7"] else none

/-! ## Claim C1 -/

set_option maxRecDepth 8000 in
/-- **C1** (refuted — the code diverges from the claim).  In the end-to-end
scenario the app image `registry://api:^1.0.0` is normalized to
`registry:5000/api:^1.0.0`; `parseImageRef` then splits at the *first* colon
— the one inside the rewritten host `registry:5000` — yielding repository
`""` and tag `"5000/api:^1.0.0"` instead of repository `"api"` and tag
`"^1.0.0"`.  That tag matches no semver range, so `resolveImageToDigest`
returns `null` and the resolved service keeps the unresolved reference: no
digest for tag `1.1.0` is ever pinned, even though the range matcher itself
would select `1.1.0`, and even though the same reference *without* the
internal-host rewrite resolves correctly. -/
theorem claim_C1_portable_image_resolution_bug :
    normalizeLocalRegistry "registry://api:^1.0.0" "registry.example.com" =
      "registry:5000/api:^1.0.0" ∧
    parseImageRef "registry:5000/api:^1.0.0" =
      ⟨"registry", "", some "5000/api:^1.0.0", none⟩ ∧
    resolveImageToDigest scenarioRegistry "registry.example.com"
      "registry:5000/api:^1.0.0" = none ∧
    resolveAppImage scenarioRegistry "registry.example.com" "registry://api:^1.0.0" =
      "registry:5000/api:^1.0.0" ∧
    resolveSemver scenarioRegistry scenarioIntent = [] ∧
    matchSemverRange "^1.0.0" ["1.0.0", "1.1.0"] = some "1.1.0" ∧
    resolveImageToDigest scenarioRegistry "registry.example.com"
      "registry.example.com/api:^1.0.0" =
      some "registry.example.com/api@sha256:digest-of-1.1.0" := by
  refine ⟨rfl, rfl, rfl, rfl, rfl, rfl, rfl⟩

/-! ## Claim C2 -/

/-- `mapGet m x = none` iff no entry of `m` has key `x`. -/
theorem mapGet_eq_none_iff (m : List (String × String)) (x : String) :
    mapGet m x = none ↔ ∀ e ∈ m, e.1 ≠ x := by
  unfold mapGet
  rw [Option.map_eq_none', List.find?_eq_none]
  simp

/-- After `mapSet m k v` there is an entry with key `k`. -/
theorem mapSet_self_key (m : List (String × String)) (k v : String) :
    ∃ e ∈ mapSet m k v, e.1 = k := by
  unfold mapSet
  by_cases hany : m.any (fun e => e.1 == k)
  · rw [if_pos hany]
    obtain ⟨e, he, hek⟩ := List.any_eq_true.mp hany
    exact ⟨(k, v), List.mem_map.mpr ⟨e, he, by simp [hek]⟩, rfl⟩
  · rw [if_neg hany]
    exact ⟨(k, v), List.mem_append_right _ (by simp), rfl⟩

/-- Every key of `m` either equals the set key or survives `mapSet`. -/
theorem mapSet_key_covers (m : List (String × String)) (k v : String)
    (e : String × String) (he : e ∈ m) :
    e.1 = k ∨ ∃ e2 ∈ mapSet m k v, e2.1 = e.1 := by
  unfold mapSet
  by_cases hany : m.any (fun e => e.1 == k)
  · rw [if_pos hany]
    by_cases hek : e.1 == k
    · exact Or.inl (by simpa using hek)
    · exact Or.inr ⟨e, List.mem_map.mpr ⟨e, he, by simp [hek]⟩, rfl⟩
  · rw [if_neg hany]
    exact Or.inr ⟨e, List.mem_append_left _ he, rfl⟩

/-- A key absent after a `set` was absent before and differs from the set
key. -/
theorem mapGet_mapSet_none (m : List (String × String)) (k v x : String)
    (h : mapGet (mapSet m k v) x = none) : mapGet m x = none ∧ x ≠ k := by
  rw [mapGet_eq_none_iff] at h
  have hxk : x ≠ k := by
    obtain ⟨e, he, hek⟩ := mapSet_self_key m k v
    exact fun hx => h e he (hek.trans hx.symm)
  refine ⟨(mapGet_eq_none_iff m x).mpr ?_, hxk⟩
  intro e he
  rcases mapSet_key_covers m k v e he with h1 | ⟨e2, he2, hk⟩
  · exact fun hx => hxk (hx.symm.trans h1)
  · exact fun hx => h e2 he2 (hk.trans hx)

/-- Success of the app-domain walk means every app domain is absent from the
seed map and the infra set, and app domains are pairwise distinct. -/
theorem checkAppDomains_ok :
    ∀ (apps : List App) (allDomains : List (String × String)) (infraDomains : List String),
      checkAppDomains apps allDomains infraDomains = .ok () →
      (∀ a ∈ apps, mapGet allDomains a.domain = none ∧
        infraDomains.contains a.domain = false) ∧
      apps.Pairwise (fun x y => x.domain ≠ y.domain) := by
  intro apps
  induction apps with
  | nil => intro _ _ _; exact ⟨by simp, List.Pairwise.nil⟩
  | cons app rest ih =>
    intro allDomains infraDomains h
    unfold checkAppDomains at h
    cases hget : mapGet allDomains app.domain with
    | some v => rw [hget] at h; simp at h
    | none =>
      rw [hget] at h
      by_cases hinf : infraDomains.contains app.domain
      · rw [if_pos hinf] at h; simp at h
      · rw [if_neg hinf] at h
        have hrec := ih _ _ h
        refine ⟨?_, ?_⟩
        · intro a ha
          rcases List.mem_cons.mp ha with rfl | hmem
          · exact ⟨hget, Bool.eq_false_iff.mpr hinf⟩
          · have := (hrec.1 a hmem)
            exact ⟨(mapGet_mapSet_none _ _ _ _ this.1).1, this.2⟩
        · refine List.Pairwise.cons ?_ hrec.2
          intro a hmem
          have := (mapGet_mapSet_none _ _ _ _ (hrec.1 a hmem).1).2
          exact fun hd => this hd.symm

/-- Inversion of a successful `Except` bind. -/
theorem exceptBindOk {α β : Type} {x : Except String α} {f : α → Except String β}
    {b : β} (h : (x >>= f) = .ok b) : ∃ a, x = .ok a ∧ f a = .ok b := by
  cases x with
  | error e => exact absurd h (by simp [Bind.bind, Except.bind])
  | ok a => exact ⟨a, rfl, by simpa [Bind.bind, Except.bind] using h⟩

/-- A successful `validateIntent` implies its app-domain walk succeeded. -/
theorem validateIntent_ok_domains (i : Intent) (out : Intent)
    (h : validateIntent i = .ok out) :
    checkAppDomains i.apps
      (mapSet (mapSet (mapSet [] i.tower.domain "tower") i.registry.domain "registry")
        i.otel.domain "otel")
      [i.tower.domain, i.registry.domain, i.otel.domain] = .ok () := by
  unfold validateIntent at h
  obtain ⟨a1, -, h⟩ := exceptBindOk h
  obtain ⟨a2, h2, -⟩ := exceptBindOk h
  exact h2

/-- **C2** is refuted on the code: `validateIntent` accepts an intent whose
`tower` and `registry` blocks share the domain `dup.example.com` (with no
apps), because the `allDomains` map is seeded with `Map.set` calls that
silently overwrite an infrastructure domain already present; only app
domains are ever tested for conflicts. -/
theorem claim_C2_counterexample :
    dupInfraIntent.tower.domain = dupInfraIntent.registry.domain ∧
    validateIntent dupInfraIntent = .ok dupInfraIntent :=
  ⟨rfl, rfl⟩

/-- **C2** (amended).  `validateIntent` rejects every intent in which an
app's domain equals an infrastructure domain or another app's domain;
conflicts among the three infrastructure domains alone are not detected.
Stated in the contrapositive: any accepted intent has app domains disjoint
from the infrastructure domains and pairwise distinct. -/
theorem claim_C2_domain_conflicts (i : Intent) (out : Intent)
    (h : validateIntent i = .ok out) :
    (∀ a ∈ i.apps, a.domain ≠ i.tower.domain ∧ a.domain ≠ i.registry.domain ∧
      a.domain ≠ i.otel.domain) ∧
    i.apps.Pairwise (fun x y => x.domain ≠ y.domain) := by
  have hd := validateIntent_ok_domains i out h
  have hc := checkAppDomains_ok _ _ _ hd
  refine ⟨?_, hc.2⟩
  intro a ha
  have hinf := (hc.1 a ha).2
  have hmem : a.domain ∉ [i.tower.domain, i.registry.domain, i.otel.domain] := by
    intro hm
    have hco : [i.tower.domain, i.registry.domain, i.otel.domain].contains a.domain = true :=
      List.elem_iff.mpr hm
    rw [hinf] at hco
    exact Bool.false_ne_true hco
  simp only [List.mem_cons, List.not_mem_nil, or_false] at hmem
  push_neg at hmem
  exact hmem

/-- Witness for the amended C2: the scenario intent validates successfully,
so its app domain is distinct from all infrastructure domains. -/
theorem claim_C2_domain_conflicts_witness :
    (∀ a ∈ scenarioIntent.apps, a.domain ≠ scenarioIntent.tower.domain ∧
      a.domain ≠ scenarioIntent.registry.domain ∧
      a.domain ≠ scenarioIntent.otel.domain) ∧
    scenarioIntent.apps.Pairwise (fun x y => x.domain ≠ y.domain) :=
  claim_C2_domain_conflicts scenarioIntent scenarioIntent rfl

/-! ## Claim C4 -/

/-- **C4**.  `resolveImageToDigest` is total (it returns an `Option`, never
propagating an error): a reference that already carries a digest is returned
unchanged; a parsed tag that does not look like a version range — in
particular the implicit `"latest"` of a bare reference — yields `null`; and
a failing tag listing or digest fetch yields `null` instead of an error.
(A parsed tag can never be absent: `parseImageRef` defaults it to
`"latest"`; the code's `!parsed.tag` guard is unreachable.) -/
theorem claim_C4_resolveImageToDigest_soft (reg : RegistryModel) (dom ref : String) :
    (∀ d, (parseImageRef ref).digest = some d →
      resolveImageToDigest reg dom ref = some ref) ∧
    (∀ tag, (parseImageRef ref).digest = none → (parseImageRef ref).tag = some tag →
      isSemverLike tag = false → resolveImageToDigest reg dom ref = none) ∧
    (parseImageRef "nginx").tag = some "latest" ∧
    resolveImageToDigest reg dom "nginx" = none ∧
    (∀ tag, (parseImageRef ref).digest = none → (parseImageRef ref).tag = some tag →
      reg.listTags (registryBaseUrl dom (parseImageRef ref)) (parseImageRef ref).repository =
        none →
      resolveImageToDigest reg dom ref = none) ∧
    (∀ tag tags matchedTag,
      (parseImageRef ref).digest = none → (parseImageRef ref).tag = some tag →
      reg.listTags (registryBaseUrl dom (parseImageRef ref)) (parseImageRef ref).repository =
        some tags →
      matchSemverRange tag tags = some matchedTag →
      reg.getDigest (registryBaseUrl dom (parseImageRef ref)) (parseImageRef ref).repository
        matchedTag = none →
      resolveImageToDigest reg dom ref = none) := by
  refine ⟨?_, ?_, rfl, rfl, ?_, ?_⟩
  · intro d hd
    simp only [resolveImageToDigest]
    rw [hd]
  · intro tag hd ht hs
    simp [resolveImageToDigest, hd, ht, hs]
  · intro tag hd ht hlist
    cases hs : isSemverLike tag <;> simp [resolveImageToDigest, hd, ht, hs, hlist]
  · intro tag tags matchedTag hd ht hlist hmatch hdig
    cases hs : isSemverLike tag <;>
      simp [resolveImageToDigest, hd, ht, hs, hlist, hmatch, hdig]

/-- Witness for C4: each soft-failure branch exercised at a concrete input. -/
theorem claim_C4_witness :
    resolveImageToDigest scenarioRegistry "registry.example.com"
      "r.example.com/api@sha256:abc" = some "r.example.com/api@sha256:abc" ∧
    resolveImageToDigest scenarioRegistry "registry.example.com"
      "r.example.com/api:stable" = none ∧
    resolveImageToDigest failingRegistry "registry.example.com"
      "r.example.com/api:^1.0.0" = none ∧
    resolveImageToDigest digestFailRegistry "registry.example.com"
      "r.example.com/api:^1.0.0" = none :=
  ⟨(claim_C4_resolveImageToDigest_soft scenarioRegistry "registry.example.com"
      "r.example.com/api@sha256:abc").1 "sha256:abc" rfl,
   (claim_C4_resolveImageToDigest_soft scenarioRegistry "registry.example.com"
      "r.example.com/api:stable").2.1 "stable" rfl rfl rfl,
   (claim_C4_resolveImageToDigest_soft failingRegistry "registry.example.com"
      "r.example.com/api:^1.0.0").2.2.2.2.1 "^1.0.0" rfl rfl rfl,
   (claim_C4_resolveImageToDigest_soft digestFailRegistry "registry.example.com"
      "r.example.com/api:^1.0.0").2.2.2.2.2 "^1.0.0" ["1.0.0", "1.1.0"] "1.1.0"
      rfl rfl rfl rfl rfl⟩

/-! ## Claim C9 -/

/-- **C9**.  In the generated Caddy config: a service with policy
`basic_write_only` and no declared scopes gets a subroute whose single
protected branch matches methods `POST PUT PATCH DELETE` on path `/v2/*`
(the default write scope) and is followed by an unprotected reverse-proxy
fallback branch; and for `basic_write_only` or `basic_scoped`, whenever
scope normalization leaves no scope with a nonempty path or method list, the
generated route is exactly the `basic_all` route for that domain. -/
theorem claim_C9_scoped_routes (svc : CaddySvc) (a : AuthConfig)
    (hauth : svc.auth = some a) (hdom : svc.domain ≠ "") (hname : svc.name ≠ "caddy") :
    (a.policy = "basic_write_only" → a.scopes = none →
      routeForService svc = some
        (CaddyRoute.mk (some [⟨some [svc.domain], none, none⟩])
          [CaddyHandler.subroute
            [CaddyRoute.mk
              (some [⟨none, some ["/v2/*"], some ["POST", "PUT", "PATCH", "DELETE"]⟩])
              [CaddyHandler.authentication (toBasicAccounts a.basicUsers),
               CaddyHandler.reverseProxy (dialOf svc)] none,
             CaddyRoute.mk none [CaddyHandler.reverseProxy (dialOf svc)] none]]
          (some true))) ∧
    ((a.policy = "basic_write_only" ∨ a.policy = "basic_scoped") →
      normalizeScopes a.scopes a.policy = [] →
      routeForService svc = some
        (buildBasicAllRoute svc.domain (dialOf svc) (toBasicAccounts a.basicUsers))) := by
  have hdomb : (svc.domain == "") = false := by simp [hdom]
  have hnameb : (svc.name == "caddy") = false := by simp [hname]
  constructor
  · intro hpol hscopes
    simp [routeForService, hauth, hdomb, hnameb, hpol, hscopes, normalizeScopes,
      buildScopedRoute, defaultWriteScope]
  · intro hpol hnorm
    rcases hpol with hpol | hpol <;>
    · rw [hpol] at hnorm
      simp [routeForService, hauth, hdomb, hnameb, hpol, hnorm, buildScopedRoute]

/-- Witness for C9: both conclusions at concrete services. -/
theorem claim_C9_scoped_routes_witness :
    routeForService writeOnlySvc = some
      (CaddyRoute.mk (some [⟨some ["registry.example.com"], none, none⟩])
        [CaddyHandler.subroute
          [CaddyRoute.mk
            (some [⟨none, some ["/v2/*"], some ["POST", "PUT", "PATCH", "DELETE"]⟩])
            [CaddyHandler.authentication [("ci", "hash")],
             CaddyHandler.reverseProxy "registry:5000"] none,
           CaddyRoute.mk none [CaddyHandler.reverseProxy "registry:5000"] none]]
        (some true)) ∧
    routeForService emptyScopedSvc = some
      (buildBasicAllRoute "api.example.com" "api:3000" [("u", "h")]) :=
  ⟨(claim_C9_scoped_routes writeOnlySvc ⟨"basic_write_only", some [⟨"ci", "hash"⟩], none⟩
      rfl (by decide) (by decide)).1 rfl rfl,
   (claim_C9_scoped_routes emptyScopedSvc
      ⟨"basic_scoped", some [⟨"u", "h"⟩], some [⟨none, none⟩, ⟨some [], some []⟩]⟩
      rfl (by decide) (by decide)).2 (Or.inr rfl) rfl⟩

/-! ## File-system lemmas for the applier -/

/-- `find?` ignores elements removed by a filter that its predicate already
excludes. -/
theorem find?_filter_of_imp {α : Type} (l : List α) (p f : α → Bool)
    (h : ∀ x, p x = true → f x = true) :
    (l.filter f).find? p = l.find? p := by
  induction l with
  | nil => rfl
  | cons x xs ih =>
    by_cases hf : f x = true
    · rw [List.filter_cons_of_pos hf]
      by_cases hp : p x = true
      · rw [List.find?_cons_of_pos _ hp, List.find?_cons_of_pos _ hp]
      · rw [List.find?_cons_of_neg _ (by simpa using hp),
          List.find?_cons_of_neg _ (by simpa using hp)]
        exact ih
    · have hp : ¬ p x = true := fun hc => hf (h x hc)
      rw [List.filter_cons_of_neg (by simpa using hf), List.find?_cons_of_neg _ hp]
      exact ih

/-- Reading the path just written. -/
theorem fsRead_fsWrite_self (fs : FS) (p : String) (d : FileData) :
    fsRead (fsWrite fs p d) p = some d := by
  unfold fsRead fsWrite
  rw [List.find?_cons_of_pos _ (by simp)]
  rfl

/-- Writing one path leaves every other path unchanged. -/
theorem fsRead_fsWrite_ne (fs : FS) (p : String) (d : FileData) (q : String)
    (h : q ≠ p) : fsRead (fsWrite fs p d) q = fsRead fs q := by
  unfold fsRead fsWrite
  rw [List.find?_cons_of_neg _ (by simp [Ne.symm h])]
  rw [find?_filter_of_imp]
  intro x hx
  simp only [beq_iff_eq] at hx
  simp [hx, h]

/-- Removing one path leaves every other path unchanged. -/
theorem fsRead_fsRemove_ne (fs : FS) (p q : String) (h : q ≠ p) :
    fsRead (fsRemove fs p) q = fsRead fs q := by
  unfold fsRead fsRemove
  rw [find?_filter_of_imp]
  intro x hx
  simp only [beq_iff_eq] at hx
  simp [hx, h]

/-- A removed path reads as absent. -/
theorem fsRead_fsRemove_self (fs : FS) (p : String) :
    fsRead (fsRemove fs p) p = none := by
  unfold fsRead fsRemove
  rw [Option.map_eq_none', List.find?_eq_none]
  intro e he
  have := List.of_mem_filter he
  simp only [bne_iff_ne, ne_eq] at this
  simp [this]

/-- Appending distinct suffixes to one prefix yields distinct strings. -/
theorem append_ne_of_length_ne (d a b : String) (h : a.length ≠ b.length) :
    d ++ a ≠ d ++ b := by
  intro he
  apply h
  have hl := congrArg String.length he
  rw [String.length_append, String.length_append] at hl
  omega

/-! ## Claim C5 -/

/-- **C5**.  When compose validation fails, `apply` throws, the temporary
manifest is removed, and neither the canonical `docker-compose.yml`, nor the
persisted `intent.json`, nor `Caddy.json` is touched: each reads exactly as
before the apply. -/
theorem claim_C5_validate_before_write (w : ApplyWorld) (reg : RegistryModel)
    (gc : Intent → List (String × String) → String) (gj : Intent → String)
    (intent : Intent) (fs : FS) (v : Intent)
    (hv : validateIntent intent = .ok v) (hdns : w.dnsOk = true)
    (hcv : w.composeValidateOk = false) :
    (apply w reg gc gj intent fs).1 = .error "docker-compose.yml validation failed" ∧
    fsRead (apply w reg gc gj intent fs).2
        (v.dataDir.getD DEFAULT_DATA_DIR ++ "/docker-compose.yml") =
      fsRead fs (v.dataDir.getD DEFAULT_DATA_DIR ++ "/docker-compose.yml") ∧
    fsRead (apply w reg gc gj intent fs).2
        (v.dataDir.getD DEFAULT_DATA_DIR ++ "/intent.json") =
      fsRead fs (v.dataDir.getD DEFAULT_DATA_DIR ++ "/intent.json") ∧
    fsRead (apply w reg gc gj intent fs).2
        (v.dataDir.getD DEFAULT_DATA_DIR ++ "/Caddy.json") =
      fsRead fs (v.dataDir.getD DEFAULT_DATA_DIR ++ "/Caddy.json") ∧
    fsRead (apply w reg gc gj intent fs).2
        (v.dataDir.getD DEFAULT_DATA_DIR ++ "/.docker-compose.yml.tmp") = none := by
  have hne1 : v.dataDir.getD DEFAULT_DATA_DIR ++ "/docker-compose.yml" ≠
      v.dataDir.getD DEFAULT_DATA_DIR ++ "/.docker-compose.yml.tmp" :=
    append_ne_of_length_ne _ _ _ (by decide)
  have hne2 : v.dataDir.getD DEFAULT_DATA_DIR ++ "/intent.json" ≠
      v.dataDir.getD DEFAULT_DATA_DIR ++ "/.docker-compose.yml.tmp" :=
    append_ne_of_length_ne _ _ _ (by decide)
  have hne3 : v.dataDir.getD DEFAULT_DATA_DIR ++ "/Caddy.json" ≠
      v.dataDir.getD DEFAULT_DATA_DIR ++ "/.docker-compose.yml.tmp" :=
    append_ne_of_length_ne _ _ _ (by decide)
  refine ⟨?_, ?_, ?_, ?_, ?_⟩ <;>
    simp [apply, hv, hdns, hcv, fsRead_fsRemove_ne, fsRead_fsWrite_ne,
      fsRead_fsRemove_self, hne1, hne2, hne3]

/-- Witness for C5: the failing apply at the scenario intent on an empty
file system. -/
theorem claim_C5_validate_before_write_witness :
    (apply ⟨true, false, true, true, "2026-01-01T00:00:00Z"⟩ scenarioRegistry
        (fun _ _ => "compose") (fun _ => "caddy") scenarioIntent []).1 =
      .error "docker-compose.yml validation failed" ∧
    fsRead (apply ⟨true, false, true, true, "2026-01-01T00:00:00Z"⟩ scenarioRegistry
        (fun _ _ => "compose") (fun _ => "caddy") scenarioIntent []).2
      (DEFAULT_DATA_DIR ++ "/intent.json") = fsRead [] (DEFAULT_DATA_DIR ++ "/intent.json") :=
  have h := claim_C5_validate_before_write
    ⟨true, false, true, true, "2026-01-01T00:00:00Z"⟩ scenarioRegistry
    (fun _ _ => "compose") (fun _ => "caddy") scenarioIntent [] scenarioIntent rfl rfl rfl
  ⟨h.1, h.2.2.1⟩

/-! ## Claim C6 -/

/-- **C6**.  The applied-intent record is written only after every stage has
succeeded.  Each failing stage — intent validation, the DNS gate, compose
validation, `docker compose up`, the Caddy reload — aborts the run with an
error and leaves `intent.json` exactly as it was; only the fully successful
run returns `ok` and persists the applied record (the validated intent, the
`appliedAt` timestamp, and the resolved-image map). -/
theorem claim_C6_persist_is_commit_point (w : ApplyWorld) (reg : RegistryModel)
    (gc : Intent → List (String × String) → String) (gj : Intent → String)
    (intent : Intent) (fs : FS) :
    (∀ e, validateIntent intent = .error e →
      apply w reg gc gj intent fs = (.error e, fs)) ∧
    (∀ v, validateIntent intent = .ok v → w.dnsOk = false →
      apply w reg gc gj intent fs = (.error "DNS validation failed", fs)) ∧
    (∀ v, validateIntent intent = .ok v → w.dnsOk = true →
      w.composeValidateOk = false →
      (apply w reg gc gj intent fs).1 = .error "docker-compose.yml validation failed" ∧
      fsRead (apply w reg gc gj intent fs).2
          (v.dataDir.getD DEFAULT_DATA_DIR ++ "/intent.json") =
        fsRead fs (v.dataDir.getD DEFAULT_DATA_DIR ++ "/intent.json")) ∧
    (∀ v, validateIntent intent = .ok v → w.dnsOk = true →
      w.composeValidateOk = true → w.composeUpOk = false →
      (apply w reg gc gj intent fs).1 = .error "compose up failed" ∧
      fsRead (apply w reg gc gj intent fs).2
          (v.dataDir.getD DEFAULT_DATA_DIR ++ "/intent.json") =
        fsRead fs (v.dataDir.getD DEFAULT_DATA_DIR ++ "/intent.json")) ∧
    (∀ v, validateIntent intent = .ok v → w.dnsOk = true →
      w.composeValidateOk = true → w.composeUpOk = true → w.caddyLoadOk = false →
      (apply w reg gc gj intent fs).1 = .error "caddy reload failed" ∧
      fsRead (apply w reg gc gj intent fs).2
          (v.dataDir.getD DEFAULT_DATA_DIR ++ "/intent.json") =
        fsRead fs (v.dataDir.getD DEFAULT_DATA_DIR ++ "/intent.json")) ∧
    (∀ v, validateIntent intent = .ok v → w.dnsOk = true →
      w.composeValidateOk = true → w.composeUpOk = true → w.caddyLoadOk = true →
      (apply w reg gc gj intent fs).1 = .ok () ∧
      fsRead (apply w reg gc gj intent fs).2
          (v.dataDir.getD DEFAULT_DATA_DIR ++ "/intent.json") =
        some (.appliedRecord v w.now (resolveSemver reg v))) := by
  refine ⟨?_, ?_, ?_, ?_, ?_, ?_⟩
  · intro e he
    simp [apply, he]
  · intro v hv hdns
    simp [apply, hv, hdns]
  · intro v hv hdns hcv
    have hne2 : v.dataDir.getD DEFAULT_DATA_DIR ++ "/intent.json" ≠
        v.dataDir.getD DEFAULT_DATA_DIR ++ "/.docker-compose.yml.tmp" :=
      append_ne_of_length_ne _ _ _ (by decide)
    refine ⟨?_, ?_⟩ <;>
      simp [apply, hv, hdns, hcv, fsRead_fsRemove_ne, fsRead_fsWrite_ne, hne2]
  · intro v hv hdns hcv hup
    have hne1 : v.dataDir.getD DEFAULT_DATA_DIR ++ "/intent.json" ≠
        v.dataDir.getD DEFAULT_DATA_DIR ++ "/docker-compose.yml" :=
      append_ne_of_length_ne _ _ _ (by decide)
    have hne2 : v.dataDir.getD DEFAULT_DATA_DIR ++ "/intent.json" ≠
        v.dataDir.getD DEFAULT_DATA_DIR ++ "/.docker-compose.yml.tmp" :=
      append_ne_of_length_ne _ _ _ (by decide)
    have hne3 : v.dataDir.getD DEFAULT_DATA_DIR ++ "/intent.json" ≠
        v.dataDir.getD DEFAULT_DATA_DIR ++ "/Caddy.json" :=
      append_ne_of_length_ne _ _ _ (by decide)
    refine ⟨?_, ?_⟩ <;>
      simp [apply, hv, hdns, hcv, hup, fsRead_fsRemove_ne, fsRead_fsWrite_ne,
        hne1, hne2, hne3]
  · intro v hv hdns hcv hup hcad
    have hne1 : v.dataDir.getD DEFAULT_DATA_DIR ++ "/intent.json" ≠
        v.dataDir.getD DEFAULT_DATA_DIR ++ "/docker-compose.yml" :=
      append_ne_of_length_ne _ _ _ (by decide)
    have hne2 : v.dataDir.getD DEFAULT_DATA_DIR ++ "/intent.json" ≠
        v.dataDir.getD DEFAULT_DATA_DIR ++ "/.docker-compose.yml.tmp" :=
      append_ne_of_length_ne _ _ _ (by decide)
    have hne3 : v.dataDir.getD DEFAULT_DATA_DIR ++ "/intent.json" ≠
        v.dataDir.getD DEFAULT_DATA_DIR ++ "/Caddy.json" :=
      append_ne_of_length_ne _ _ _ (by decide)
    refine ⟨?_, ?_⟩ <;>
      simp [apply, hv, hdns, hcv, hup, hcad, fsRead_fsRemove_ne, fsRead_fsWrite_ne,
        hne1, hne2, hne3]
  · intro v hv hdns hcv hup hcad
    refine ⟨?_, ?_⟩ <;>
      simp [apply, hv, hdns, hcv, hup, hcad, fsRead_fsWrite_self]

/-- Witness for C6: a DNS-gate failure leaves the file system untouched, and
the fully successful run persists the applied record. -/
theorem claim_C6_persist_is_commit_point_witness :
    apply ⟨false, true, true, true, "2026-01-01T00:00:00Z"⟩ scenarioRegistry
        (fun _ _ => "compose") (fun _ => "caddy") scenarioIntent [] =
      (.error "DNS validation failed", []) ∧
    fsRead (apply ⟨true, true, true, true, "2026-01-01T00:00:00Z"⟩ scenarioRegistry
        (fun _ _ => "compose") (fun _ => "caddy") scenarioIntent []).2
      (DEFAULT_DATA_DIR ++ "/intent.json") =
      some (.appliedRecord scenarioIntent "2026-01-01T00:00:00Z"
        (resolveSemver scenarioRegistry scenarioIntent)) :=
  ⟨(claim_C6_persist_is_commit_point ⟨false, true, true, true, "2026-01-01T00:00:00Z"⟩
      scenarioRegistry (fun _ _ => "compose") (fun _ => "caddy") scenarioIntent []).2.1
      scenarioIntent rfl rfl,
   ((claim_C6_persist_is_commit_point ⟨true, true, true, true, "2026-01-01T00:00:00Z"⟩
      scenarioRegistry (fun _ _ => "compose") (fun _ => "caddy") scenarioIntent []).2.2.2.2.2
      scenarioIntent rfl rfl rfl rfl rfl).2⟩

/-! ## Health-monitor loop characterization (claims C7 and C10) -/

/-- A failed container is never counted healthy. -/
theorem healthy_false_of_failed (c : ContainerHealth)
    (h : isContainerFailed c = true) : isContainerHealthy c = false := by
  rcases (Bool.or_eq_true _ _).mp h with h1 | h1
  · rw [beq_iff_eq] at h1
    simp [isContainerHealthy, h1]
  · rw [beq_iff_eq] at h1
    simp [isContainerHealthy, h1]

/-- A poll that reports failed containers does not report convergence. -/
theorem allHealthy_false_of_failed (obs : Nat → String → ContainerHealth)
    (names : List String) (m : Nat) (h : failedAt obs names m ≠ []) :
    allHealthyAt obs names m = false := by
  have hfil : (pollHealth obs names m).filter isContainerFailed ≠ [] := by
    intro hc
    exact h (by simp [failedAt, hc])
  obtain ⟨c, hc⟩ := List.exists_mem_of_ne_nil _ hfil
  have hcf := List.of_mem_filter hc
  have hcm := List.mem_of_mem_filter hc
  by_contra hall
  have hall' : allHealthyAt obs names m = true := by
    cases hx : allHealthyAt obs names m
    · exact absurd hx hall
    · rfl
  have := List.all_eq_true.mp hall' c hcm
  rw [healthy_false_of_failed c hcf] at this
  exact Bool.false_ne_true this

/-- If every in-budget poll is quiet (no convergence and no failure), the
loop times out. -/
theorem waitGo_timeout (obs : Nat → String → ContainerHealth) (names : List String)
    (T : Nat) :
    ∀ fuel k,
      (∀ j, k ≤ j → 2 * j ≤ T →
        allHealthyAt obs names j = false ∧ failedAt obs names j = []) →
      waitGo obs names T fuel k = .timeout := by
  intro fuel
  induction fuel with
  | zero => intro k _; rfl
  | succ fuel ih =>
    intro k hq
    unfold waitGo
    by_cases hk : 2000 * k > 1000 * T
    · rw [if_pos hk]
    · rw [if_neg hk]
      have hqk := hq k (Nat.le_refl _) (by omega)
      rw [hqk.1, if_neg (by simp), hqk.2]
      simp only [List.isEmpty_nil, Bool.not_true, Bool.false_eq_true, if_false]
      exact ih (k + 1) fun j hj => hq j (by omega)

/-- If poll `m` is the first non-quiet poll and it observes full
convergence, the loop succeeds at poll `m`. -/
theorem waitGo_success (obs : Nat → String → ContainerHealth) (names : List String)
    (T : Nat) :
    ∀ fuel k m, k ≤ m → 2 * m ≤ T → allHealthyAt obs names m = true →
      (∀ j, k ≤ j → j < m →
        allHealthyAt obs names j = false ∧ failedAt obs names j = []) →
      m < fuel + k →
      waitGo obs names T fuel k = .success m := by
  intro fuel
  induction fuel with
  | zero => intro k m hkm _ _ _ hf; omega
  | succ fuel ih =>
    intro k m hkm hm hall hq hf
    unfold waitGo
    rw [if_neg (by omega)]
    rcases Nat.eq_or_lt_of_le hkm with rfl | hlt
    · rw [hall, if_pos rfl]
    · have hqk := hq k (Nat.le_refl _) hlt
      rw [hqk.1, if_neg (by simp), hqk.2]
      simp only [List.isEmpty_nil, Bool.not_true, Bool.false_eq_true, if_false]
      exact ih (k + 1) m hlt hm hall (fun j hj => hq j (by omega)) (by omega)

/-- If poll `m` is the first non-quiet poll and it observes a failed
container, the loop fails at poll `m` naming exactly the failed
containers. -/
theorem waitGo_failed (obs : Nat → String → ContainerHealth) (names : List String)
    (T : Nat) :
    ∀ fuel k m, k ≤ m → 2 * m ≤ T → failedAt obs names m ≠ [] →
      (∀ j, k ≤ j → j < m →
        allHealthyAt obs names j = false ∧ failedAt obs names j = []) →
      m < fuel + k →
      waitGo obs names T fuel k = .failed m (failedAt obs names m) := by
  intro fuel
  induction fuel with
  | zero => intro k m hkm _ _ _ hf; omega
  | succ fuel ih =>
    intro k m hkm hm hfail hq hf
    unfold waitGo
    rw [if_neg (by omega)]
    rcases Nat.eq_or_lt_of_le hkm with rfl | hlt
    · rw [allHealthy_false_of_failed obs names k hfail, if_neg (by simp),
        if_pos (by simpa using hfail)]
    · have hqk := hq k (Nat.le_refl _) hlt
      rw [hqk.1, if_neg (by simp), hqk.2]
      simp only [List.isEmpty_nil, Bool.not_true, Bool.false_eq_true, if_false]
      exact ih (k + 1) m hlt hm hfail (fun j hj => hq j (by omega)) (by omega)

/-- A success outcome can only come from an in-budget poll that observed
full convergence. -/
theorem waitGo_success_inv (obs : Nat → String → ContainerHealth) (names : List String)
    (T : Nat) :
    ∀ fuel k m, waitGo obs names T fuel k = .success m →
      k ≤ m ∧ 2 * m ≤ T ∧ allHealthyAt obs names m = true := by
  intro fuel
  induction fuel with
  | zero => intro k m h; exact absurd h (by simp [waitGo])
  | succ fuel ih =>
    intro k m h
    unfold waitGo at h
    by_cases hk : 2000 * k > 1000 * T
    · rw [if_pos hk] at h; exact absurd h (by simp)
    · rw [if_neg hk] at h
      cases hall : allHealthyAt obs names k
      · rw [hall] at h
        simp only [Bool.false_eq_true, if_false] at h
        by_cases hfail : (failedAt obs names k).isEmpty = true
        · rw [if_neg (by simp [hfail])] at h
          have := ih (k + 1) m h
          exact ⟨by omega, this.2.1, this.2.2⟩
        · rw [if_pos (by simpa using hfail)] at h
          exact absurd h (by simp)
      · rw [hall, if_pos rfl] at h
        cases h
        exact ⟨(Nat.le_refl _), by omega, hall⟩

/-- A failure outcome can only come from an in-budget poll that observed at
least one failed container, and it names exactly those containers. -/
theorem waitGo_failed_inv (obs : Nat → String → ContainerHealth) (names : List String)
    (T : Nat) :
    ∀ fuel k m ns, waitGo obs names T fuel k = .failed m ns →
      k ≤ m ∧ 2 * m ≤ T ∧ ns = failedAt obs names m ∧ failedAt obs names m ≠ [] := by
  intro fuel
  induction fuel with
  | zero => intro k m ns h; exact absurd h (by simp [waitGo])
  | succ fuel ih =>
    intro k m ns h
    unfold waitGo at h
    by_cases hk : 2000 * k > 1000 * T
    · rw [if_pos hk] at h; exact absurd h (by simp)
    · rw [if_neg hk] at h
      cases hall : allHealthyAt obs names k
      · rw [hall] at h
        simp only [Bool.false_eq_true, if_false] at h
        by_cases hfail : (failedAt obs names k).isEmpty = true
        · rw [if_neg (by simp [hfail])] at h
          have := ih (k + 1) m ns h
          exact ⟨by omega, this.2⟩
        · rw [if_pos (by simpa using hfail)] at h
          cases h
          exact ⟨(Nat.le_refl _), by omega, rfl, by simpa using hfail⟩
      · rw [hall, if_pos rfl] at h
        exact absurd h (by simp)

/-- **C7**.  `waitForHealthy` succeeds exactly when some in-budget poll
observes every container running with health `"healthy"` or `"none"` (and no
earlier poll observed a hard failure): the first such poll yields success; a
poll observing a container with health `"unhealthy"` or status `"exited"`
makes the run fail at that same poll — within the budget, so before the
timeout would elapse — naming exactly the failed containers; and when every
in-budget poll is quiet the run ends with the distinct timeout error. -/
theorem claim_C7_waitForHealthy_outcomes (obs : Nat → String → ContainerHealth)
    (names : List String) (T : Nat) :
    (∀ m, 2 * m ≤ T → allHealthyAt obs names m = true →
      (∀ j, j < m → allHealthyAt obs names j = false ∧ failedAt obs names j = []) →
      waitForHealthy obs names T = .success m) ∧
    (∀ m, 2 * m ≤ T → failedAt obs names m ≠ [] →
      (∀ j, j < m → allHealthyAt obs names j = false ∧ failedAt obs names j = []) →
      waitForHealthy obs names T = .failed m (failedAt obs names m)) ∧
    ((∀ j, 2 * j ≤ T → allHealthyAt obs names j = false ∧ failedAt obs names j = []) →
      waitForHealthy obs names T = .timeout) ∧
    (∀ m, waitForHealthy obs names T = .success m →
      2 * m ≤ T ∧ allHealthyAt obs names m = true) ∧
    (∀ m ns, waitForHealthy obs names T = .failed m ns →
      2 * m ≤ T ∧ ns = failedAt obs names m ∧ ns ≠ []) := by
  refine ⟨?_, ?_, ?_, ?_, ?_⟩
  · intro m hm hall hq
    exact waitGo_success obs names T (T / 2 + 2) 0 m (by omega) hm hall
      (fun j _ hj => hq j hj) (by omega)
  · intro m hm hfail hq
    exact waitGo_failed obs names T (T / 2 + 2) 0 m (by omega) hm hfail
      (fun j _ hj => hq j hj) (by omega)
  · intro hq
    exact waitGo_timeout obs names T (T / 2 + 2) 0 (fun j _ hj => hq j hj)
  · intro m h
    have := waitGo_success_inv obs names T (T / 2 + 2) 0 m h
    exact ⟨this.2.1, this.2.2⟩
  · intro m ns h
    have := waitGo_failed_inv obs names T (T / 2 + 2) 0 m ns h
    exact ⟨this.2.1, this.2.2.1, this.2.2.1 ▸ this.2.2.2⟩

/-- Witness for C7: a container set with one exited entry fails at poll 0 —
immediately, not after the 60 s timeout — naming exactly that container. -/
theorem claim_C7_waitForHealthy_outcomes_witness :
    waitForHealthy exitedObs ["web", "db"] 60 = .failed 0 ["db"] :=
  (claim_C7_waitForHealthy_outcomes exitedObs ["web", "db"] 60).2.1 0 (by omega)
    (by decide) (fun j hj => absurd hj (Nat.not_lt_zero j))

/-! ## Claim C10 -/

/-- **C10**.  `getContainerHealth` is total: a thrown inspect call and a
non-zero exit both yield `{status: "unknown", health: "none"}`.  Such a
record counts neither as healthy nor as failed, so a container that can
never be inspected drives `waitForHealthy` to its timeout error — never to a
fast failure, and never to a hang. -/
theorem claim_C10_uninspectable_container (names : List String) (T : Nat)
    (hne : names ≠ []) :
    (∀ name, getContainerHealth none name = unknownHealth name) ∧
    (∀ r name, r.success = false → getContainerHealth (some r) name = unknownHealth name) ∧
    (∀ name, isContainerHealthy (unknownHealth name) = false ∧
      isContainerFailed (unknownHealth name) = false) ∧
    waitForHealthy (fun _ n => unknownHealth n) names T = .timeout := by
  refine ⟨fun _ => rfl, ?_, fun _ => ⟨rfl, rfl⟩, ?_⟩
  · intro r name hr
    simp [getContainerHealth, hr, unknownHealth]
  · apply waitGo_timeout
    intro j _ _
    constructor
    · obtain ⟨n, hn⟩ := List.exists_mem_of_ne_nil _ hne
      cases hx : allHealthyAt (fun _ n => unknownHealth n) names j
      · rfl
      · have := List.all_eq_true.mp hx (unknownHealth n)
          (by exact List.mem_map.mpr ⟨n, hn, rfl⟩)
        exact absurd this (by simp [isContainerHealthy, unknownHealth])
    · unfold failedAt
      rw [List.filter_eq_nil_iff.mpr ?_]
      · rfl
      · intro c hc
        obtain ⟨n, -, rfl⟩ := List.mem_map.mp hc
        simp [isContainerFailed, unknownHealth]

/-- Witness for C10: two containers that can never be inspected time out. -/
theorem claim_C10_uninspectable_container_witness :
    waitForHealthy (fun _ n => unknownHealth n) ["web", "db"] 10 = .timeout :=
  (claim_C10_uninspectable_container ["web", "db"] 10 (by decide)).2.2.2

/-! ## DNS-gate loop characterization (claim C8) -/

/-- A `true` result of the retry loop comes from some in-budget poll that
resolved the domain to a nonempty address list. -/
theorem dnsGo_true_inv (dns : DnsModel) (d : String) (T : Nat) :
    ∀ fuel j, dnsGo dns d T fuel j = true →
      ∃ i, j ≤ i ∧ 2 * i < T ∧ resolvedAt dns d i = true := by
  intro fuel
  induction fuel with
  | zero => intro j h; exact absurd h (by simp [dnsGo])
  | succ fuel ih =>
    intro j h
    unfold dnsGo at h
    by_cases hj : 2000 * j < 1000 * T
    · rw [if_pos hj] at h
      cases hr : resolvedAt dns d j
      · rw [hr] at h
        simp only [Bool.false_eq_true, if_false] at h
        obtain ⟨i, hi1, hi2, hi3⟩ := ih (j + 1) h
        exact ⟨i, by omega, hi2, hi3⟩
      · exact ⟨j, Nat.le_refl _, by omega, hr⟩
    · rw [if_neg hj] at h
      exact absurd h (by simp)

/-- If some in-budget poll resolves the domain, the retry loop returns
`true` (given enough fuel to reach it). -/
theorem dnsGo_true (dns : DnsModel) (d : String) (T : Nat) :
    ∀ fuel j i, j ≤ i → 2 * i < T → resolvedAt dns d i = true → i < fuel + j →
      dnsGo dns d T fuel j = true := by
  intro fuel
  induction fuel with
  | zero => intro j i hji _ _ hf; omega
  | succ fuel ih
    =>
    intro j i hji hi hr hf
    unfold dnsGo
    rw [if_pos (by omega)]
    cases hrj : resolvedAt dns d j
    · simp only [Bool.false_eq_true, if_false]
      have hne : j ≠ i := fun he => by rw [he, hr] at hrj; exact Bool.false_ne_true hrj.symm
      exact ih (j + 1) i (by omega) hi hr (by omega)
    · simp

/-- The failed-domain aggregation of `validateDns` in terms of a plain
filter over the domain list. -/
theorem dns_failed_filter (domains : List String) (f : String → Bool) :
    ((domains.map (fun d => (d, f d))).filter (fun r => !r.2)).map (·.1) =
      domains.filter (fun d => !f d) := by
  induction domains with
  | nil => rfl
  | cons d rest ih =>
    cases hf : f d <;>
      simp [List.filter_cons, hf, ih]

/-- **C8**.  `validateDns` on an empty domain list succeeds for every DNS
oracle (no query is consulted).  A single domain validates exactly when some
poll within its per-domain budget — one attempt every 2 s while
`2·j < timeout` — observes a successful, nonempty resolution (errors and
empty answers are retried).  For a nonempty list, the call succeeds when
every domain validates and otherwise fails with one aggregate `DnsError`
naming exactly the domains that never resolved. -/
theorem claim_C8_validateDns_aggregate :
    (∀ (dns : DnsModel) (T : Nat), validateDns dns [] T = .ok ()) ∧
    (∀ (dns : DnsModel) (d : String) (T : Nat),
      validateSingleDomain dns d T = true ↔
        ∃ j, 2 * j < T ∧ resolvedAt dns d j = true) ∧
    (∀ (dns : DnsModel) (domains : List String) (T : Nat), domains ≠ [] →
      domains.filter (fun d => !validateSingleDomain dns d T) = [] →
      validateDns dns domains T = .ok ()) ∧
    (∀ (dns : DnsModel) (domains : List String) (T : Nat), domains ≠ [] →
      domains.filter (fun d => !validateSingleDomain dns d T) ≠ [] →
      validateDns dns domains T =
        .error ("DNS validation failed for: " ++ String.intercalate ", "
          (domains.filter (fun d => !validateSingleDomain dns d T)))) := by
  refine ⟨fun _ _ => rfl, ?_, ?_, ?_⟩
  · intro dns d T
    constructor
    · intro h
      obtain ⟨i, -, hi2, hi3⟩ := dnsGo_true_inv dns d T _ 0 h
      exact ⟨i, hi2, hi3⟩
    · rintro ⟨j, hj, hr⟩
      exact dnsGo_true dns d T _ 0 j (by omega) hj hr (by omega)
  · intro dns domains T hne hfil
    have hb := dns_failed_filter domains (fun d => validateSingleDomain dns d T)
    rw [hfil] at hb
    have hfe : (domains.map (fun d => (d, validateSingleDomain dns d T))).filter
        (fun r => !r.2) = [] := List.map_eq_nil_iff.mp hb
    have hni : domains.isEmpty = false := by
      cases domains
      · exact absurd rfl hne
      · rfl
    simp [validateDns, hni, hfe]
  · intro dns domains T hne hfil
    have hb := dns_failed_filter domains (fun d => validateSingleDomain dns d T)
    have hfe : (domains.map (fun d => (d, validateSingleDomain dns d T))).filter
        (fun r => !r.2) ≠ [] := by
      intro hc
      rw [hc] at hb
      exact hfil hb.symm
    have hni : domains.isEmpty = false := by
      cases domains
      · exact absurd rfl hne
      · rfl
    have hfi : ((domains.map (fun d => (d, validateSingleDomain dns d T))).filter
        (fun r => !r.2)).isEmpty = false := by
      cases hx : (domains.map (fun d => (d, validateSingleDomain dns d T))).filter
          (fun r => !r.2)
      · exact absurd hx hfe
      · rfl
    simp [validateDns, hni, hfi, hb]

/-- Witness for C8: a mixed domain list fails with one aggregate error
naming exactly the never-resolving domain, and a resolving single domain
validates. -/
theorem claim_C8_validateDns_aggregate_witness :
    validateDns scenarioDns ["app.example.com", "bad.example.com"] 30 =
      .error ("DNS validation failed for: " ++ String.intercalate ", " ["bad.example.com"]) ∧
    validateSingleDomain scenarioDns "app.example.com" 30 = true :=
  ⟨by
    have h := claim_C8_validateDns_aggregate.2.2.2 scenarioDns
      ["app.example.com", "bad.example.com"] 30 (by decide) (by decide)
    simpa using h,
   (claim_C8_validateDns_aggregate.2.1 scenarioDns "app.example.com" 30).mpr
     ⟨2, by omega, rfl⟩⟩

/-! ## Semver-matcher lemmas (claim C3) -/

/-- `splitOnCharL` never returns the empty list. -/
theorem splitOnCharL_ne_nil (sep : Char) (l : List Char) :
    splitOnCharL sep l ≠ [] := by
  induction l with
  | nil => simp [splitOnCharL]
  | cons c rest ih =>
    unfold splitOnCharL
    by_cases hc : c = sep
    · simp [hc]
    · rw [if_neg hc]
      cases h : splitOnCharL sep rest <;> simp

/-- The unfolding of `splitOnCharL` on a cons cell. -/
theorem splitOnCharL_cons (sep c : Char) (rest : List Char) :
    splitOnCharL sep (c :: rest) =
      if c = sep then [] :: splitOnCharL sep rest
      else
        match splitOnCharL sep rest with
        | h :: t => (c :: h) :: t
        | [] => [[c]] := rfl

/-- Splitting a list whose prefix is free of the separator peels the prefix
off as the first segment. -/
theorem splitOnCharL_append (sep : Char) (a b : List Char)
    (h : ∀ c ∈ a, ¬ c = sep) :
    splitOnCharL sep (a ++ sep :: b) = a :: splitOnCharL sep b := by
  induction a with
  | nil => simp [splitOnCharL]
  | cons x a' ih =>
    have hx : ¬ x = sep := h x (List.mem_cons_self _ _)
    rw [List.cons_append, splitOnCharL_cons, if_neg hx,
      ih (fun c hc => h c (List.mem_cons_of_mem _ hc))]

/-- A nonempty digit group is a JS number, not `NaN`. -/
theorem jsNumL_digits (l : List Char) (h1 : l.isEmpty = false)
    (h2 : l.all Char.isDigit = true) : ∃ k, jsNumL l = some k := by
  refine ⟨l.foldl (fun acc c => acc * 10 + (c.toNat - 48)) 0, ?_⟩
  simp [jsNumL, h1, h2]

/-- A semver-looking tag has numeric major and minor components and a
present (possibly `NaN`) patch component. -/
theorem isSemverTagL_parts (n : List Char) (h : isSemverTagL n = true) :
    ∃ a b, ((splitOnCharL '.' n).map jsNumL).get? 0 = some (some a) ∧
      ((splitOnCharL '.' n).map jsNumL).get? 1 = some (some b) ∧
      (((splitOnCharL '.' n).map jsNumL).get? 2).isSome = true := by
  unfold isSemverTagL at h
  cases h1 : n.dropWhile Char.isDigit with
  | nil => rw [h1] at h; exact absurd h (by simp)
  | cons c1 s1 =>
    rw [h1] at h
    rw [Bool.and_eq_true] at h
    obtain ⟨hc1, h⟩ := h
    rw [beq_iff_eq] at hc1
    subst hc1
    cases h2 : s1.dropWhile Char.isDigit with
    | nil => rw [h2] at h; exact absurd h (by simp)
    | cons c2 s2 =>
      rw [h2] at h
      simp only [Bool.and_eq_true] at h
      obtain ⟨⟨⟨⟨hc2, hd1⟩, hd2⟩, hd3⟩, -⟩ := h
      rw [beq_iff_eq] at hc2
      subst hc2
      have hd1' : (n.takeWhile Char.isDigit).all Char.isDigit = true :=
        List.all_eq_true.mpr fun c hc => List.mem_takeWhile_imp hc
      have hd2' : (s1.takeWhile Char.isDigit).all Char.isDigit = true :=
        List.all_eq_true.mpr fun c hc => List.mem_takeWhile_imp hc
      have hn : n = n.takeWhile Char.isDigit ++ '.' :: s1 := by
        conv_lhs => rw [← List.takeWhile_append_dropWhile (p := Char.isDigit) (l := n)]
        rw [h1]
      have hs1 : s1 = s1.takeWhile Char.isDigit ++ '.' :: s2 := by
        conv_lhs => rw [← List.takeWhile_append_dropWhile (p := Char.isDigit) (l := s1)]
        rw [h2]
      have hnodot1 : ∀ c ∈ n.takeWhile Char.isDigit, ¬ c = '.' := by
        intro c hc hcd
        have := List.mem_takeWhile_imp hc
        rw [hcd] at this
        exact absurd this (by decide)
      have hnodot2 : ∀ c ∈ s1.takeWhile Char.isDigit, ¬ c = '.' := by
        intro c hc hcd
        have := List.mem_takeWhile_imp hc
        rw [hcd] at this
        exact absurd this (by decide)
      obtain ⟨ka, hka⟩ := jsNumL_digits _ (by simpa using hd1) hd1'
      obtain ⟨kb, hkb⟩ := jsNumL_digits _ (by simpa using hd2) hd2'
      refine ⟨ka, kb, ?_, ?_, ?_⟩ <;>
      · conv_lhs => rw [hn]
        rw [splitOnCharL_append _ _ _ hnodot1]
        conv_lhs => rw [hs1]
        rw [splitOnCharL_append _ _ _ hnodot2]
        cases h3 : splitOnCharL '.' s2 with
        | nil => exact absurd h3 (splitOnCharL_ne_nil _ _)
        | cons p t => simp [hka, hkb]

/-- A leading non-digit, non-dot character rules out the exact-triple
branch. -/
theorem isExactTripleL_head_false (c : Char) (l : List Char)
    (hc : c.isDigit = false) (hcd : ¬ c = '.') :
    isExactTripleL (c :: l) = false := by
  unfold isExactTripleL splitOnCharL
  rw [if_neg hcd]
  cases hsp : splitOnCharL '.' l with
  | nil => exact absurd hsp (splitOnCharL_ne_nil _ _)
  | cons h t =>
    cases t with
    | nil => rfl
    | cons t1 t2 =>
      cases t2 with
      | nil => rfl
      | cons t3 t4 =>
        cases t4 with
        | nil => simp [hc]
        | cons _ _ => rfl

/-- The caret branch of the range matcher, characterized on semver candidate
tags: the tag matches iff its major equals the range's major and its minor
is not below the range's minor — the range's patch never matters. -/
theorem rangeMatchesL_caret (v t : List Char) (X Y a b : Nat)
    (hstar : ('^' :: v).contains '*' = false)
    (hX : ((splitOnCharL '.' v).map jsNumL).get? 0 = some (some X))
    (hY : ((splitOnCharL '.' v).map jsNumL).get? 1 = some (some Y))
    (hta : (numParts (normalizeTagL t)).get? 0 = some (some a))
    (htb : (numParts (normalizeTagL t)).get? 1 = some (some b))
    (htp : ((numParts (normalizeTagL t)).get? 2).isSome = true) :
    rangeMatchesL ('^' :: v) t = (decide (a = X) && decide (Y ≤ b)) := by
  unfold rangeMatchesL
  rw [if_neg (by rw [isExactTripleL_head_false '^' v (by decide) (by decide)]; simp),
    if_neg (by rw [hstar]; simp)]
  show (jsSEq ((numParts (normalizeTagL t)).get? 0) (((splitOnCharL '.' v).map jsNumL).get? 0) &&
      (jsGt ((numParts (normalizeTagL t)).get? 1) (((splitOnCharL '.' v).map jsNumL).get? 1) ||
        (jsSEq ((numParts (normalizeTagL t)).get? 1) (((splitOnCharL '.' v).map jsNumL).get? 1) &&
          ((numParts (normalizeTagL t)).get? 2).isSome))) =
    (decide (a = X) && decide (Y ≤ b))
  rw [hX, hY, hta, htb, htp]
  show ((a == X) && (decide (Y < b) || ((b == Y) && true))) = (decide (a = X) && decide (Y ≤ b))
  by_cases hax : a = X
  · by_cases hyb : Y ≤ b
    · rcases Nat.eq_or_lt_of_le hyb with rfl | hlt
      · simp [hax]
      · simp [hax, hlt, Nat.le_of_lt hlt]
    · have h1 : ¬ Y < b := by omega
      have h2 : ¬ b = Y := by omega
      simp [hax, hyb, h1, h2]
  · simp [hax]

/-- A tag of the exact `X.Y.Z` shape has three numeric components. -/
theorem pureTriple_parts (n : List Char) (h : isExactTripleL n = true) :
    ∃ x0 x1 x2, (splitOnCharL '.' n).map jsNumL = [some x0, some x1, some x2] := by
  unfold isExactTripleL at h
  cases hsp : splitOnCharL '.' n with
  | nil => exact absurd hsp (splitOnCharL_ne_nil _ _)
  | cons p0 t =>
    rw [hsp] at h
    cases t with
    | nil => exact absurd h (by simp)
    | cons p1 t2 =>
      cases t2 with
      | nil => exact absurd h (by simp)
      | cons p2 t3 =>
        cases t3 with
        | cons _ _ => exact absurd h (by simp)
        | nil =>
          simp only [Bool.and_eq_true] at h
          obtain ⟨⟨⟨⟨⟨h1, h2⟩, h3⟩, h4⟩, h5⟩, h6⟩ := h
          obtain ⟨k0, hk0⟩ := jsNumL_digits p0 (by simpa using h1) h2
          obtain ⟨k1, hk1⟩ := jsNumL_digits p1 (by simpa using h3) h4
          obtain ⟨k2, hk2⟩ := jsNumL_digits p2 (by simpa using h5) h6
          exact ⟨k0, k1, k2, by simp [hk0, hk1, hk2]⟩

/-- `compareSemver` on two numeric triples is the lexicographic comparison
of their components. -/
theorem compareSemver_numeric (x y : String) (x0 x1 x2 y0 y1 y2 : Nat)
    (hx : numParts (normalizeTagL x.toList) = [some x0, some x1, some x2])
    (hy : numParts (normalizeTagL y.toList) = [some y0, some y1, some y2]) :
    compareSemver x y =
      (if x0 = y0 then (if x1 = y1 then compare x2 y2 else compare x1 y1)
       else compare x0 y0) := by
  have hx' : numParts (normalizeTagL x.data) = [some x0, some x1, some x2] := hx
  have hy' : numParts (normalizeTagL y.data) = [some y0, some y1, some y2] := hy
  by_cases h0 : x0 = y0 <;> by_cases h1 : x1 = y1 <;> by_cases h2 : x2 = y2 <;>
    simp [compareSemver, hx, hy, hx', hy', cmpPart, h0, h1, h2,
      Nat.compare_eq_eq.mpr rfl]

/-- Non-strict comparison of numeric triples, arithmetically. -/
theorem compareSemver_not_gt_iff (x y : String) (x0 x1 x2 y0 y1 y2 : Nat)
    (hx : numParts (normalizeTagL x.toList) = [some x0, some x1, some x2])
    (hy : numParts (normalizeTagL y.toList) = [some y0, some y1, some y2]) :
    compareSemver x y ≠ Ordering.gt ↔
      (x0 < y0 ∨ (x0 = y0 ∧ (x1 < y1 ∨ (x1 = y1 ∧ x2 ≤ y2)))) := by
  rw [compareSemver_numeric x y x0 x1 x2 y0 y1 y2 hx hy]
  by_cases h0 : x0 = y0 <;> by_cases h1 : x1 = y1 <;>
    simp [h0, h1, Nat.compare_eq_gt] <;> omega

/-- Strict comparison of numeric triples, arithmetically. -/
theorem compareSemver_gt_iff (x y : String) (x0 x1 x2 y0 y1 y2 : Nat)
    (hx : numParts (normalizeTagL x.toList) = [some x0, some x1, some x2])
    (hy : numParts (normalizeTagL y.toList) = [some y0, some y1, some y2]) :
    compareSemver x y = Ordering.gt ↔
      (y0 < x0 ∨ (x0 = y0 ∧ (y1 < x1 ∨ (x1 = y1 ∧ y2 < x2)))) := by
  rw [compareSemver_numeric x y x0 x1 x2 y0 y1 y2 hx hy]
  by_cases h0 : x0 = y0 <;> by_cases h1 : x1 = y1 <;>
    simp [h0, h1, Nat.compare_eq_gt] <;> omega

/-- The unfolding of `pickBestFrom` on a cons cell. -/
theorem pickBestFrom_cons (b t : String) (rest : List String) :
    pickBestFrom b (t :: rest) =
      pickBestFrom (if compareSemver b t = Ordering.gt then b else t) rest := rfl

/-- The scan of `pickBestFrom` over numeric triples returns an element of the
scanned set that no element of the set strictly exceeds. -/
theorem pickBestFrom_max :
    ∀ (l : List String) (b : String),
      (∀ t ∈ l, isExactTripleL (normalizeTagL t.toList) = true) →
      isExactTripleL (normalizeTagL b.toList) = true →
      (pickBestFrom b l = b ∨ pickBestFrom b l ∈ l) ∧
      compareSemver b (pickBestFrom b l) ≠ Ordering.gt ∧
      (∀ x ∈ l, compareSemver x (pickBestFrom b l) ≠ Ordering.gt) := by
  intro l
  induction l with
  | nil =>
    intro b _ hb
    obtain ⟨b0, b1, b2, hbp⟩ := pureTriple_parts _ hb
    refine ⟨Or.inl rfl, ?_, by simp⟩
    rw [show pickBestFrom b [] = b from rfl,
      compareSemver_not_gt_iff b b b0 b1 b2 b0 b1 b2 hbp hbp]
    omega
  | cons t l' ih =>
    intro b hl hb
    have ht : isExactTripleL (normalizeTagL t.toList) = true :=
      hl t (List.mem_cons_self _ _)
    have hl' : ∀ u ∈ l', isExactTripleL (normalizeTagL u.toList) = true :=
      fun u hu => hl u (List.mem_cons_of_mem _ hu)
    obtain ⟨b0, b1, b2, hbp⟩ := pureTriple_parts _ hb
    obtain ⟨t0, t1, t2, htp⟩ := pureTriple_parts _ ht
    by_cases hbt : compareSemver b t = Ordering.gt
    · have heq : pickBestFrom b (t :: l') = pickBestFrom b l' := by
        rw [pickBestFrom_cons, if_pos hbt]
      rw [heq]
      obtain ⟨hmem, hbr, hall⟩ := ih b hl' hb
      have hrpure : isExactTripleL (normalizeTagL (pickBestFrom b l').toList) = true := by
        rcases hmem with h | h
        · rw [h]; exact hb
        · exact hl' _ h
      obtain ⟨r0, r1, r2, hrp⟩ := pureTriple_parts _ hrpure
      refine ⟨?_, hbr, ?_⟩
      · rcases hmem with h | h
        · exact Or.inl h
        · exact Or.inr (List.mem_cons_of_mem _ h)
      · intro x hx
        rcases List.mem_cons.mp hx with rfl | hx'
        · rw [compareSemver_gt_iff b x b0 b1 b2 t0 t1 t2 hbp htp] at hbt
          rw [compareSemver_not_gt_iff b _ b0 b1 b2 r0 r1 r2 hbp hrp] at hbr
          rw [compareSemver_not_gt_iff x _ t0 t1 t2 r0 r1 r2 htp hrp]
          omega
        · exact hall x hx'
    · have heq : pickBestFrom b (t :: l') = pickBestFrom t l' := by
        rw [pickBestFrom_cons, if_neg hbt]
      rw [heq]
      obtain ⟨hmem, htr, hall⟩ := ih t hl' ht
      have hrpure : isExactTripleL (normalizeTagL (pickBestFrom t l').toList) = true := by
        rcases hmem with h | h
        · rw [h]; exact ht
        · exact hl' _ h
      obtain ⟨r0, r1, r2, hrp⟩ := pureTriple_parts _ hrpure
      refine ⟨?_, ?_, ?_⟩
      · rcases hmem with h | h
        · exact Or.inr (by rw [h]; exact List.mem_cons_self _ _)
        · exact Or.inr (List.mem_cons_of_mem _ h)
      · rw [compareSemver_gt_iff b t b0 b1 b2 t0 t1 t2 hbp htp] at hbt
        rw [compareSemver_not_gt_iff t _ t0 t1 t2 r0 r1 r2 htp hrp] at htr
        rw [compareSemver_not_gt_iff b _ b0 b1 b2 r0 r1 r2 hbp hrp]
        omega
      · intro x hx
        rcases List.mem_cons.mp hx with rfl | hx'
        · exact htr
        · exact hall x hx'

/-! ## Claim C3 -/

set_option maxRecDepth 8000 in
/-- **C3**.  `matchSemverRange` on the spec's tag set returns `1.3.0` for
`^1.2.0`, `1.2.3` for `~1.2.3` and `1.2.3` for `1.2.*`; on every semver
candidate tag, a caret range `^X.Y[.Z]` matches exactly when the tag's major
equals `X` and its minor is at least `Y` (the loose caret: the range's patch
component is ignored); and over numeric `X.Y.Z` candidate tags the returned
tag is a matching member of the tag set that no other matching tag exceeds
in (major, minor, patch) order. -/
theorem claim_C3_matchSemverRange :
    matchSemverRange "^1.2.0" ["1.2.0", "1.2.3", "1.3.0", "2.0.0"] = some "1.3.0" ∧
    matchSemverRange "~1.2.3" ["1.2.0", "1.2.3", "1.3.0", "2.0.0"] = some "1.2.3" ∧
    matchSemverRange "1.2.*" ["1.2.0", "1.2.3", "1.3.0", "2.0.0"] = some "1.2.3" ∧
    (∀ (range tag : String) (v : List Char) (X Y a b : Nat),
      range.toList = '^' :: v →
      ('^' :: v).contains '*' = false →
      ((splitOnCharL '.' v).map jsNumL).get? 0 = some (some X) →
      ((splitOnCharL '.' v).map jsNumL).get? 1 = some (some Y) →
      isSemverTag tag = true →
      (numParts (normalizeTagL tag.toList)).get? 0 = some (some a) →
      (numParts (normalizeTagL tag.toList)).get? 1 = some (some b) →
      (rangeMatches range tag = true ↔ (a = X ∧ Y ≤ b))) ∧
    (∀ (range r : String) (tags : List String),
      (∀ t ∈ tags, isSemverTag t = true ∧
        isExactTripleL (normalizeTagL t.toList) = true) →
      matchSemverRange range tags = some r →
      r ∈ tags ∧ rangeMatches range r = true ∧
      ∀ x ∈ tags, rangeMatches range x = true →
        compareSemver x r ≠ Ordering.gt) := by
  refine ⟨rfl, rfl, rfl, ?_, ?_⟩
  · intro range tag v X Y a b hr hstar hX hY htag hta htb
    have h2 : rangeMatches range tag = rangeMatchesL ('^' :: v) tag.toList := by
      unfold rangeMatches
      rw [hr]
      rfl
    obtain ⟨a', b', -, -, htp⟩ := isSemverTagL_parts _ htag
    rw [h2, rangeMatchesL_caret v tag.toList X Y a b hstar hX hY hta htb htp]
    simp
  · intro range r tags htags h
    unfold matchSemverRange at h
    have hfil : tags.filter isSemverTag = tags :=
      List.filter_eq_self.mpr (fun t ht => (htags t ht).1)
    rw [hfil] at h
    by_cases hemp : tags.isEmpty = true
    · rw [if_pos hemp] at h
      exact absurd h (by simp)
    · rw [if_neg hemp] at h
      by_cases hme : (tags.filter (fun tag => rangeMatches range tag)).isEmpty = true
      · rw [if_pos hme] at h
        exact absurd h (by simp)
      · rw [if_neg hme] at h
        cases hml : tags.filter (fun tag => rangeMatches range tag) with
        | nil =>
          rw [hml] at hme
          exact absurd (rfl : ([] : List String).isEmpty = true) hme
        | cons m ms =>
          rw [hml] at h
          unfold pickBest at h
          have hr : r = pickBestFrom m ms := by
            cases h
            rfl
          have hmpure : ∀ u ∈ m :: ms, isExactTripleL (normalizeTagL u.toList) = true := by
            intro u hu
            rw [← hml] at hu
            exact (htags u (List.mem_of_mem_filter hu)).2
          obtain ⟨hmem, hbm, hall⟩ := pickBestFrom_max ms m
            (fun u hu => hmpure u (List.mem_cons_of_mem _ hu))
            (hmpure m (List.mem_cons_self _ _))
          have hrmem : r ∈ tags.filter (fun tag => rangeMatches range tag) := by
            rw [hml, hr]
            rcases hmem with hh | hh
            · rw [hh]
              exact List.mem_cons_self _ _
            · exact List.mem_cons_of_mem _ hh
          refine ⟨List.mem_of_mem_filter hrmem, by simpa using List.of_mem_filter hrmem, ?_⟩
          intro x hx hmx
          have hxm : x ∈ m :: ms := by
            rw [← hml]
            exact List.mem_filter.mpr ⟨hx, by simpa using hmx⟩
          rcases List.mem_cons.mp hxm with rfl | hx'
          · exact hr ▸ hbm
          · exact hr ▸ hall x hx'

/-- Witness for C3: the caret characterization applied to `^1.2.0` and tag
`1.3.0`, and the highest-match property applied to `~1.2.3` over the spec's
tag set. -/
theorem claim_C3_matchSemverRange_witness :
    rangeMatches "^1.2.0" "1.3.0" = true ∧
    ("1.2.3" ∈ (["1.2.0", "1.2.3", "1.3.0", "2.0.0"] : List String) ∧
      rangeMatches "~1.2.3" "1.2.3" = true ∧
      ∀ x ∈ (["1.2.0", "1.2.3", "1.3.0", "2.0.0"] : List String),
        rangeMatches "~1.2.3" x = true → compareSemver x "1.2.3" ≠ Ordering.gt) := by
  constructor
  · exact (claim_C3_matchSemverRange.2.2.2.1 "^1.2.0" "1.3.0" "1.2.0".toList 1 2 1 3
      rfl (by decide) (by decide) (by decide) (by decide) (by decide) (by decide)).mpr
      ⟨rfl, by omega⟩
  · exact claim_C3_matchSemverRange.2.2.2.2 "~1.2.3" "1.2.3"
      ["1.2.0", "1.2.3", "1.3.0", "2.0.0"] (by decide) rfl

end Tower
